import Mathlib

/-!
Verification of the platypus-qa core against its specification.

This file shallowly embeds the type lattice (`platypus_qa/database/formula.py`,
classes `Type` and `_AtomicType`, together with the class/datatype hierarchy of
`platypus_qa/database/owl.py`), the formula model (`formula.py`), the SPARQL
query builder (`platypus_qa/database/wikidata.py`), the disambiguation tree
builder (`platypus_qa/analyzer/disambiguation.py`) and the fuzzy relation
lookup (`wikidata.py`), and proves or refutes the frozen claims about them.
-/

namespace Platypus

/-! ### The OWL class hierarchy (`owl.py`, module-level `Class` constants)

`owl.py` creates exactly these `Class` instances at module level; each carries
the list of direct superclasses passed to its constructor. -/

inductive CClass where
  | rdfs_Class
  | owl_Thing
  | owl_Nothing
  | rdfs_Datatype
  | rdf_Property
  | owl_ObjectProperty
  | owl_DatatypeProperty
  | owl_NamedIndividual
  | schema_Person
  | schema_Place
deriving DecidableEq, Fintype, Repr

open CClass in
/-- The `subclass_of` constructor argument of each `Class` instance in `owl.py`. -/
def subclassParents : CClass → List CClass
  | rdfs_Class => []
  | owl_Thing => []
  | owl_Nothing => []
  | rdfs_Datatype => []
  | rdf_Property => [owl_Thing]
  | owl_ObjectProperty => [rdf_Property]
  | owl_DatatypeProperty => [rdf_Property]
  | owl_NamedIndividual => [owl_Thing]
  | schema_Person => [owl_NamedIndividual]
  | schema_Place => [owl_NamedIndividual]

/-- `Class.is_subclass_of`, with a fuel argument to make the recursion through
the parent lists structural; fuel 4 exceeds the depth of the hierarchy. -/
def subclassAux : Nat → CClass → CClass → Bool
  | 0, _, _ => false
  | n + 1, c, other =>
    c == CClass.owl_Nothing || c == other ||
      (subclassParents c).any (fun p => subclassAux n p other)

/-- `Class.is_subclass_of(self, other)`: true for `owl:Nothing`, reflexive, and
closed under the declared parent lists. -/
def is_subclass_of (c other : CClass) : Bool := subclassAux 4 c other

/-- The fuel 4 is enough: `is_subclass_of` satisfies the recursive equation of
the Python method. -/
theorem is_subclass_of_eq (c other : CClass) :
    is_subclass_of c other =
      (c == CClass.owl_Nothing || c == other ||
        (subclassParents c).any (fun p => is_subclass_of p other)) := by
  revert c other; decide

theorem subclass_refl (c : CClass) : is_subclass_of c c = true := by
  revert c; decide

theorem subclass_trans (a b c : CClass) (h1 : is_subclass_of a b = true)
    (h2 : is_subclass_of b c = true) : is_subclass_of a c = true := by
  revert h1 h2; revert a b c; decide

theorem subclass_antisymm (a b : CClass) (h1 : is_subclass_of a b = true)
    (h2 : is_subclass_of b a = true) : a = b := by
  revert h1 h2; revert a b; decide

theorem subclass_nothing_le (c : CClass) : is_subclass_of CClass.owl_Nothing c = true := by
  revert c; decide

theorem subclass_le_nothing (c : CClass) (h : is_subclass_of c CClass.owl_Nothing = true) :
    c = CClass.owl_Nothing := by
  revert h; revert c; decide

theorem subclass_le_thing_of_thing (c : CClass)
    (h : is_subclass_of CClass.owl_Thing c = true) : c = CClass.owl_Thing := by
  revert h; revert c; decide

/-! ### The datatype hierarchy (`owl.py`, module-level `Datatype` constants) -/

inductive CDatatype where
  | rdfs_Literal
  | rdf_langString
  | platypus_calendar
  | platypus_numeric
  | xsd_anyURI
  | xsd_boolean
  | xsd_dateTime
  | xsd_date
  | xsd_decimal
  | xsd_double
  | xsd_duration
  | xsd_float
  | xsd_gYearMonth
  | xsd_gYear
  | xsd_integer
  | xsd_string
  | xsd_time
  | geo_wktLiteral
deriving DecidableEq, Fintype, Repr

open CDatatype in
/-- The `restriction_of` constructor argument of each `Datatype` in `owl.py`. -/
def restrictionParents : CDatatype → List CDatatype
  | rdfs_Literal => []
  | rdf_langString => [rdfs_Literal]
  | platypus_calendar => [rdfs_Literal]
  | platypus_numeric => [rdfs_Literal]
  | xsd_anyURI => [rdfs_Literal]
  | xsd_boolean => [rdfs_Literal]
  | xsd_dateTime => [rdfs_Literal, platypus_calendar]
  | xsd_date => [rdfs_Literal, platypus_calendar]
  | xsd_decimal => [rdfs_Literal, platypus_numeric]
  | xsd_double => [rdfs_Literal, platypus_numeric]
  | xsd_duration => [rdfs_Literal]
  | xsd_float => [rdfs_Literal, platypus_numeric]
  | xsd_gYearMonth => [rdfs_Literal, platypus_calendar]
  | xsd_gYear => [rdfs_Literal, platypus_calendar]
  | xsd_integer => [rdfs_Literal, platypus_numeric, xsd_decimal]
  | xsd_string => [rdfs_Literal]
  | xsd_time => [rdfs_Literal, platypus_calendar]
  | geo_wktLiteral => [rdfs_Literal]

/-- `Datatype.is_restriction_of` with structural fuel; fuel 5 exceeds the
depth of the hierarchy. -/
def restrictionAux : Nat → CDatatype → CDatatype → Bool
  | 0, _, _ => false
  | n + 1, d, other =>
    d == other || (restrictionParents d).any (fun p => restrictionAux n p other)

/-- `Datatype.is_restriction_of(self, other)`: reflexive and closed under the
declared restriction lists. -/
def is_restriction_of (d other : CDatatype) : Bool := restrictionAux 5 d other

/-- Fuel 5 is enough: `is_restriction_of` satisfies the recursive equation of
the Python method. -/
theorem is_restriction_of_eq (d other : CDatatype) :
    is_restriction_of d other =
      (d == other || (restrictionParents d).any (fun p => is_restriction_of p other)) := by
  revert d other; decide

theorem restriction_refl (d : CDatatype) : is_restriction_of d d = true := by
  revert d; decide

theorem restriction_trans (a b c : CDatatype) (h1 : is_restriction_of a b = true)
    (h2 : is_restriction_of b c = true) : is_restriction_of a c = true := by
  revert h1 h2; revert a b c; decide

theorem restriction_antisymm (a b : CDatatype) (h1 : is_restriction_of a b = true)
    (h2 : is_restriction_of b a = true) : a = b := by
  revert h1 h2; revert a b; decide

theorem restriction_le_literal (d : CDatatype) :
    is_restriction_of d CDatatype.rdfs_Literal = true := by
  revert d; decide

theorem restriction_literal_le (d : CDatatype)
    (h : is_restriction_of CDatatype.rdfs_Literal d = true) : d = CDatatype.rdfs_Literal := by
  revert h; revert d; decide

/-- In this datatype hierarchy, any two datatypes with a common lower bound are
comparable (every restriction cone is a chain). -/
theorem restriction_cone_chain (e d1 d2 : CDatatype) (h1 : is_restriction_of e d1 = true)
    (h2 : is_restriction_of e d2 = true) :
    is_restriction_of d1 d2 = true ∨ is_restriction_of d2 d1 = true := by
  revert h1 h2; revert e d1 d2; decide


/-! ### A generic "keep the maximal, non-excluded members" filter

Both simplification passes of `_AtomicType` filter a finite set down to the
members not strictly dominated by another member (and, for the outer pass on
classes, not equal to `{owl:Nothing}`).  We factor this shape out. -/

section KeepMax

variable {beta : Type} [DecidableEq beta]
variable (R : beta → beta → Bool) (bad : beta → Prop) [DecidablePred bad]

/-- Keep the members of `P` that are not `bad` and not strictly `R`-dominated
by another member of `P`.  This is the comprehension
`frozenset(i for i in present if i != excluded and not any(RED(i, j) and i != j for j in present))`
shape used by `_simplify_class`, `_simplify_datatype` and the two
`_simplify_*_intersection` helpers. -/
def keepMax (P : Finset beta) : Finset beta :=
  P.filter (fun i => ¬ bad i ∧ ∀ j ∈ P, R i j = true → i = j)

theorem mem_keepMax {P : Finset beta} {i : beta} :
    i ∈ keepMax R bad P ↔ i ∈ P ∧ ¬ bad i ∧ ∀ j ∈ P, R i j = true → i = j := by
  simp [keepMax]

theorem keepMax_subset (P : Finset beta) : keepMax R bad P ⊆ P :=
  Finset.filter_subset _ _

variable (Good : beta → Prop)

/-- Packaged order assumptions: `R` is reflexive and transitive on `Good`
members, antisymmetric on `Good` members, and `bad`-ness propagates downwards
along `R` among `Good` members. -/
structure KeepMaxAssumptions : Prop where
  hrefl : ∀ a, Good a → R a a = true
  htrans : ∀ a b c, Good a → Good b → Good c →
    R a b = true → R b c = true → R a c = true
  hanti : ∀ a b, Good a → Good b → R a b = true → R b a = true → a = b
  hbad : ∀ a b, Good a → Good b → R a b = true → bad b → bad a


/-- In a finite set over a partial preorder, every member is dominated by a
maximal member. -/
theorem exists_dominator (A : KeepMaxAssumptions R bad Good) :
    ∀ (P : Finset beta), (∀ x ∈ P, Good x) → ∀ i ∈ P,
      ∃ m ∈ P, R i m = true ∧ ∀ j ∈ P, R m j = true → m = j := by
  intro P
  induction P using Finset.strongInduction with
  | _ P ih =>
    intro hg i hi
    by_cases hdom : ∀ j ∈ P, R i j = true → i = j
    · exact ⟨i, hi, A.hrefl _ (hg i hi), hdom⟩
    · push_neg at hdom
      obtain ⟨j, hj, hRij, hne⟩ := hdom
      have hji : j ∈ P.erase i := Finset.mem_erase.mpr ⟨fun h => hne h.symm, hj⟩
      obtain ⟨m, hm, hRjm, hmax⟩ :=
        ih (P.erase i) (Finset.erase_ssubset hi)
          (fun x hx => hg x (Finset.mem_of_mem_erase hx)) j hji
      have hmP : m ∈ P := Finset.mem_of_mem_erase hm
      have hRim : R i m = true :=
        A.htrans i j m (hg i hi) (hg j hj) (hg m hmP) hRij hRjm
      refine ⟨m, hmP, hRim, ?_⟩
      intro k hk hRmk
      by_cases hki : k = i
      · subst hki
        exact A.hanti m k (hg m hmP) (hg k hk) hRmk hRim
      · exact hmax k (Finset.mem_erase.mpr ⟨hki, hk⟩) hRmk

/-- If the filter keeps nothing, every member of `P` was excluded as `bad`. -/
theorem all_bad_of_keepMax_empty (A : KeepMaxAssumptions R bad Good) {P : Finset beta} (hg : ∀ x ∈ P, Good x)
    (h : keepMax R bad P = ∅) : ∀ i ∈ P, bad i := by
  intro i hi
  obtain ⟨m, hm, hRim, hmax⟩ := exists_dominator R bad Good A P hg i hi
  by_cases hbm : bad m
  · exact A.hbad i m (hg i hi) (hg m hm) hRim hbm
  · exact absurd ((mem_keepMax R bad).mpr ⟨hm, hbm, hmax⟩) (by simp [h])

/-- Every non-`bad` member of `P` is dominated by a member that the filter
keeps. -/
theorem dominator_in_keepMax (A : KeepMaxAssumptions R bad Good) {P : Finset beta} (hg : ∀ x ∈ P, Good x)
    {i : beta} (hi : i ∈ P) (hbi : ¬ bad i) :
    ∃ m ∈ keepMax R bad P, R i m = true := by
  obtain ⟨m, hm, hRim, hmax⟩ := exists_dominator R bad Good A P hg i hi
  by_cases hbm : bad m
  · exact absurd (A.hbad i m (hg i hi) (hg m hm) hRim hbm) hbi
  · exact ⟨m, (mem_keepMax R bad).mpr ⟨hm, hbm, hmax⟩, hRim⟩

/-- The filter is unchanged when the part of its input that was already
filtered once is replaced by the filtered version: filtering absorbs. -/
theorem keepMax_absorb (A : KeepMaxAssumptions R bad Good) {P T : Finset beta} (hgP : ∀ x ∈ P, Good x)
    (hgT : ∀ x ∈ T, Good x) :
    keepMax R bad (keepMax R bad P ∪ T) = keepMax R bad (P ∪ T) := by
  have hgPT : ∀ x ∈ P ∪ T, Good x := by
    intro x hx
    rcases Finset.mem_union.mp hx with h | h
    · exact hgP x h
    · exact hgT x h
  have hgKT : ∀ x ∈ keepMax R bad P ∪ T, Good x := by
    intro x hx
    rcases Finset.mem_union.mp hx with h | h
    · exact hgP x (keepMax_subset R bad P h)
    · exact hgT x h
  ext x
  rw [mem_keepMax, mem_keepMax]
  constructor
  · rintro ⟨hxKT, hbx, hmax⟩
    have hxPT : x ∈ P ∪ T := by
      rcases Finset.mem_union.mp hxKT with h | h
      · exact Finset.mem_union_left _ (keepMax_subset R bad P h)
      · exact Finset.mem_union_right _ h
    refine ⟨hxPT, hbx, ?_⟩
    intro j hj hRxj
    rcases Finset.mem_union.mp hj with hjP | hjT
    · by_cases hbj : bad j
      · exact absurd (A.hbad x j (hgPT x hxPT) (hgP j hjP) hRxj hbj) hbx
      · obtain ⟨m, hmK, hRjm⟩ :=
          dominator_in_keepMax R bad Good A hgP hjP hbj
        have hRxm : R x m = true :=
          A.htrans x j m (hgPT x hxPT) (hgP j hjP)
            (hgP m (keepMax_subset R bad P hmK)) hRxj hRjm
        have hxm : x = m := hmax m (Finset.mem_union_left _ hmK) hRxm
        subst hxm
        exact A.hanti x j (hgPT x hxPT) (hgP j hjP) hRxj hRjm
    · exact hmax j (Finset.mem_union_right _ hjT) hRxj
  · rintro ⟨hxPT, hbx, hmax⟩
    have hxKT : x ∈ keepMax R bad P ∪ T := by
      rcases Finset.mem_union.mp hxPT with hxP | hxT
      · obtain ⟨m, hmK, hRxm⟩ :=
          dominator_in_keepMax R bad Good A hgP hxP hbx
        have hxm : x = m :=
          hmax m (Finset.mem_union_left _ (keepMax_subset R bad P hmK)) hRxm
        subst hxm
        exact Finset.mem_union_left _ hmK
      · exact Finset.mem_union_right _ hxT
    refine ⟨hxKT, hbx, ?_⟩
    intro j hj hRxj
    have hjPT : j ∈ P ∪ T := by
      rcases Finset.mem_union.mp hj with h | h
      · exact Finset.mem_union_left _ (keepMax_subset R bad P h)
      · exact Finset.mem_union_right _ h
    exact hmax j hjPT hRxj

/-- Members that are all `bad` never influence the filter. -/
theorem keepMax_union_allbad (A : KeepMaxAssumptions R bad Good) {B T : Finset beta} (hgB : ∀ x ∈ B, Good x)
    (hgT : ∀ x ∈ T, Good x) (hB : ∀ x ∈ B, bad x) :
    keepMax R bad (B ∪ T) = keepMax R bad T := by
  ext x
  rw [mem_keepMax, mem_keepMax]
  constructor
  · rintro ⟨hxBT, hbx, hmax⟩
    have hxT : x ∈ T := by
      rcases Finset.mem_union.mp hxBT with h | h
      · exact absurd (hB x h) hbx
      · exact h
    exact ⟨hxT, hbx, fun j hj hR => hmax j (Finset.mem_union_right _ hj) hR⟩
  · rintro ⟨hxT, hbx, hmax⟩
    refine ⟨Finset.mem_union_right _ hxT, hbx, ?_⟩
    intro j hj hRxj
    rcases Finset.mem_union.mp hj with hjB | hjT
    · exact absurd (A.hbad x j (hgT x hxT) (hgB j hjB) hRxj (hB j hjB)) hbx
    · exact hmax j hjT hRxj

end KeepMax


/-! ### The atomic type model (`formula.py`, class `_AtomicType`)

An `_AtomicType` is a union of intersections of classes together with a union
of intersections of datatypes, both kept simplified by the constructor. -/

def setNothing : Finset CClass := {CClass.owl_Nothing}

def setThing : Finset CClass := {CClass.owl_Thing}

def setLiteral : Finset CDatatype := {CDatatype.rdfs_Literal}

/-- `_AtomicType._class_intersection_is_in(sub, sup)`: every member of `sub`
is a subclass of some member of `sup`. -/
def class_intersection_is_in (sub sup : Finset CClass) : Bool :=
  decide (∀ se ∈ sub, ∃ pe ∈ sup, is_subclass_of se pe = true)

/-- `_AtomicType._datatype_intersection_is_in(sub, sup)`. -/
def datatype_intersection_is_in (sub sup : Finset CDatatype) : Bool :=
  decide (∀ se ∈ sub, ∃ pe ∈ sup, is_restriction_of se pe = true)

/-- `_AtomicType._simplify_class_intersection`: keep the classes with no
strict subclass present; `{owl:Thing}` when nothing remains. -/
def simplify_class_intersection (inter : Finset CClass) : Finset CClass :=
  let result := keepMax (fun a b => is_subclass_of b a) (fun _ => False) inter
  if result = ∅ then setThing else result

/-- `_AtomicType._simplify_class`: simplify every member intersection, drop
the `{owl:Nothing}` members and the members subsumed by a different member,
and fall back to `{{owl:Nothing}}` when nothing remains. -/
def simplify_class (union : Finset (Finset CClass)) : Finset (Finset CClass) :=
  let present := union.image simplify_class_intersection
  let result := keepMax class_intersection_is_in (fun i => i = setNothing) present
  if result = ∅ then {setNothing} else result

/-- `_AtomicType._simplify_datatype_intersection`: keep the datatypes with no
strict restriction present; an empty intersection means `{rdfs:Literal}`, two
or more surviving (hence unrelated) datatypes mean an empty intersection,
encoded `none`. -/
def simplify_datatype_intersection (inter : Finset CDatatype) :
    Option (Finset CDatatype) :=
  let result := keepMax (fun a b => is_restriction_of b a) (fun _ => False) inter
  if result.card = 0 then some setLiteral
  else if result.card = 1 then some result
  else none

/-- The set of non-`None` simplified member intersections (the `present` set
computed by `_AtomicType._simplify_datatype`). -/
def datatype_present (union : Finset (Finset CDatatype)) : Finset (Finset CDatatype) :=
  union.biUnion fun inter =>
    (simplify_datatype_intersection inter).elim ∅ (fun r => {r})

/-- `_AtomicType._simplify_datatype`: drop the `None` intersections and the
members subsumed by a different member.  There is no fallback here. -/
def simplify_datatype (union : Finset (Finset CDatatype)) : Finset (Finset CDatatype) :=
  keepMax datatype_intersection_is_in (fun _ => False) (datatype_present union)

/-- The value of an `_AtomicType`: its two frozensets of frozensets.
`_AtomicType.__eq__` compares exactly these two fields, so Lean equality of
`AtomicTy` is the Python equality of simplified types. -/
structure AtomicTy where
  entity : Finset (Finset CClass)
  literal : Finset (Finset CDatatype)
deriving DecidableEq

/-- `_AtomicType.__init__`: both components are simplified on construction. -/
def mkAtomicTy (e : Finset (Finset CClass)) (l : Finset (Finset CDatatype)) : AtomicTy :=
  ⟨simplify_class e, simplify_datatype l⟩

/-- `Type.from_entity` on a `Class`. -/
def tyFromClass (c : CClass) : AtomicTy := mkAtomicTy {{c}} ∅

/-- `Type.from_entity` on a `Datatype`. -/
def tyFromDatatype (d : CDatatype) : AtomicTy := mkAtomicTy ∅ {{d}}

/-- `Type.top(1)`: `_AtomicType(((),), ((),))`. -/
def tyTop : AtomicTy := mkAtomicTy {∅} {∅}

/-- `Type.bottom()`: `_AtomicType((), ())`. -/
def tyBottom : AtomicTy := mkAtomicTy ∅ ∅

/-- `_AtomicType.__or__`: chain the two unions and re-simplify. -/
def tyUnion (a b : AtomicTy) : AtomicTy :=
  mkAtomicTy (a.entity ∪ b.entity) (a.literal ∪ b.literal)

/-- `_AtomicType.__and__`: pairwise unions of member intersections, then
re-simplify. -/
def tyInter (a b : AtomicTy) : AtomicTy :=
  mkAtomicTy ((a.entity ×ˢ b.entity).image fun p => p.1 ∪ p.2)
    ((a.literal ×ˢ b.literal).image fun p => p.1 ∪ p.2)

/-- `_AtomicType.__le__`: `(self | other) == other`. -/
def tyLE (a b : AtomicTy) : Bool := tyUnion a b == b

/-! ### Goodness of simplified members -/

/-- A well-formed class intersection: nonempty and an antichain for
`is_subclass_of`.  Every output of `_simplify_class_intersection` is one. -/
def GoodE (X : Finset CClass) : Prop :=
  X.Nonempty ∧ ∀ a ∈ X, ∀ b ∈ X, is_subclass_of a b = true → a = b

/-- A well-formed datatype intersection. -/
def GoodD (X : Finset CDatatype) : Prop :=
  X.Nonempty ∧ ∀ a ∈ X, ∀ b ∈ X, is_restriction_of a b = true → a = b

theorem goodE_singleton (c : CClass) : GoodE {c} := by
  refine ⟨Finset.singleton_nonempty c, ?_⟩
  intro a ha b hb _
  rw [Finset.mem_singleton] at ha hb
  rw [ha, hb]

theorem goodD_singleton (d : CDatatype) : GoodD {d} := by
  refine ⟨Finset.singleton_nonempty d, ?_⟩
  intro a ha b hb _
  rw [Finset.mem_singleton] at ha hb
  rw [ha, hb]

/-- The `keepMax` assumptions for the outer class-union simplification. -/
theorem keepMaxAssumptionsC :
    KeepMaxAssumptions class_intersection_is_in (fun i => i = setNothing) GoodE := by
  constructor
  · intro X hX
    rw [class_intersection_is_in, decide_eq_true_eq]
    intro se hse
    exact ⟨se, hse, subclass_refl se⟩
  · intro X Y Z _ _ _ h1 h2
    rw [class_intersection_is_in, decide_eq_true_eq] at h1 h2 ⊢
    intro se hse
    obtain ⟨pe, hpe, hle⟩ := h1 se hse
    obtain ⟨qe, hqe, hle2⟩ := h2 pe hpe
    exact ⟨qe, hqe, subclass_trans se pe qe hle hle2⟩
  · intro X Y hX hY h1 h2
    rw [class_intersection_is_in, decide_eq_true_eq] at h1 h2
    apply Finset.Subset.antisymm
    · intro x hx
      obtain ⟨y, hy, hxy⟩ := h1 x hx
      obtain ⟨x2, hx2, hyx2⟩ := h2 y hy
      have hxx2 : is_subclass_of x x2 = true := subclass_trans x y x2 hxy hyx2
      have : x = x2 := hX.2 x hx x2 hx2 hxx2
      subst this
      have : y = x := subclass_antisymm y x hyx2 hxy
      rwa [this] at hy
    · intro y hy
      obtain ⟨x, hx, hyx⟩ := h2 y hy
      obtain ⟨y2, hy2, hxy2⟩ := h1 x hx
      have hyy2 : is_subclass_of y y2 = true := subclass_trans y x y2 hyx hxy2
      have : y = y2 := hY.2 y hy y2 hy2 hyy2
      subst this
      have : x = y := subclass_antisymm x y hxy2 hyx
      rwa [this] at hx
  · intro X Y hX _ hR hbadY
    rw [class_intersection_is_in, decide_eq_true_eq] at hR
    have hsub : X ⊆ setNothing := by
      intro a ha
      obtain ⟨pe, hpe, hle⟩ := hR a ha
      rw [hbadY, setNothing, Finset.mem_singleton] at hpe
      subst hpe
      rw [setNothing, Finset.mem_singleton]
      exact subclass_le_nothing a hle
    rcases Finset.subset_singleton_iff.mp hsub with h | h
    · exact absurd h (Finset.nonempty_iff_ne_empty.mp hX.1)
    · exact h

/-- The `keepMax` assumptions for the outer datatype-union simplification. -/
theorem keepMaxAssumptionsD :
    KeepMaxAssumptions datatype_intersection_is_in (fun _ => False) GoodD := by
  constructor
  · intro X hX
    rw [datatype_intersection_is_in, decide_eq_true_eq]
    intro se hse
    exact ⟨se, hse, restriction_refl se⟩
  · intro X Y Z _ _ _ h1 h2
    rw [datatype_intersection_is_in, decide_eq_true_eq] at h1 h2 ⊢
    intro se hse
    obtain ⟨pe, hpe, hle⟩ := h1 se hse
    obtain ⟨qe, hqe, hle2⟩ := h2 pe hpe
    exact ⟨qe, hqe, restriction_trans se pe qe hle hle2⟩
  · intro X Y hX hY h1 h2
    rw [datatype_intersection_is_in, decide_eq_true_eq] at h1 h2
    apply Finset.Subset.antisymm
    · intro x hx
      obtain ⟨y, hy, hxy⟩ := h1 x hx
      obtain ⟨x2, hx2, hyx2⟩ := h2 y hy
      have hxx2 : is_restriction_of x x2 = true := restriction_trans x y x2 hxy hyx2
      have : x = x2 := hX.2 x hx x2 hx2 hxx2
      subst this
      have : y = x := restriction_antisymm y x hyx2 hxy
      rwa [this] at hy
    · intro y hy
      obtain ⟨x, hx, hyx⟩ := h2 y hy
      obtain ⟨y2, hy2, hxy2⟩ := h1 x hx
      have hyy2 : is_restriction_of y y2 = true := restriction_trans y x y2 hyx hxy2
      have : y = y2 := hY.2 y hy y2 hy2 hyy2
      subst this
      have : x = y := restriction_antisymm x y hxy2 hyx
      rwa [this] at hx
  · intro X Y _ _ _ h
    exact h

theorem goodE_simplify_class_intersection (X : Finset CClass) :
    GoodE (simplify_class_intersection X) := by
  rw [simplify_class_intersection]
  by_cases h : keepMax (fun a b => is_subclass_of b a) (fun _ => False) X = ∅
  · rw [if_pos h]
    exact goodE_singleton CClass.owl_Thing
  · rw [if_neg h]
    refine ⟨Finset.nonempty_iff_ne_empty.mpr h, ?_⟩
    intro a ha b hb hab
    have hbX := (mem_keepMax _ _).mp hb
    exact (hbX.2.2 a ((keepMax_subset _ _ _) ha) hab).symm

theorem goodD_simplify_datatype_intersection (X : Finset CDatatype)
    {r : Finset CDatatype} (h : simplify_datatype_intersection X = some r) :
    GoodD r ∧ ∃ d, r = {d} := by
  rw [simplify_datatype_intersection] at h
  by_cases h0 : (keepMax (fun a b => is_restriction_of b a) (fun _ => False) X).card = 0
  · rw [if_pos h0] at h
    cases h
    exact ⟨goodD_singleton _, CDatatype.rdfs_Literal, rfl⟩
  · rw [if_neg h0] at h
    by_cases h1 : (keepMax (fun a b => is_restriction_of b a) (fun _ => False) X).card = 1
    · rw [if_pos h1] at h
      cases h
      obtain ⟨d, hd⟩ := Finset.card_eq_one.mp h1
      rw [hd]
      exact ⟨goodD_singleton d, d, rfl⟩
    · rw [if_neg h1] at h
      cases h

/-- A `GoodE` intersection is a fixpoint of `_simplify_class_intersection`. -/
theorem simplify_class_intersection_fix {X : Finset CClass} (hX : GoodE X) :
    simplify_class_intersection X = X := by
  have hfix : keepMax (fun a b => is_subclass_of b a) (fun _ => False) X = X := by
    apply Finset.Subset.antisymm (keepMax_subset _ _ _)
    intro x hx
    rw [mem_keepMax]
    exact ⟨hx, not_false, fun j hj hle => (hX.2 j hj x hx hle).symm⟩
  rw [simplify_class_intersection, hfix,
    if_neg (Finset.nonempty_iff_ne_empty.mp hX.1)]

/-- A singleton is a fixpoint of `_simplify_datatype_intersection`. -/
theorem simplify_datatype_intersection_fix (d : CDatatype) :
    simplify_datatype_intersection {d} = some {d} := by
  have hfix : keepMax (fun a b => is_restriction_of b a) (fun _ => False) {d} = {d} := by
    apply Finset.Subset.antisymm (keepMax_subset _ _ _)
    intro x hx
    rw [mem_keepMax]
    refine ⟨hx, not_false, ?_⟩
    intro j hj _
    rw [Finset.mem_singleton] at hx hj
    rw [hx, hj]
  rw [simplify_datatype_intersection, hfix]
  simp

theorem simplify_class_ne_empty (U : Finset (Finset CClass)) :
    simplify_class U ≠ ∅ := by
  rw [simplify_class]
  by_cases h : keepMax class_intersection_is_in
      (fun i => i = setNothing) (U.image simplify_class_intersection) = ∅
  · rw [if_pos h]
    exact Finset.singleton_ne_empty _
  · rw [if_neg h]
    exact h

theorem goodE_simplify_class_members (U : Finset (Finset CClass)) :
    ∀ X ∈ simplify_class U, GoodE X := by
  intro X hX
  rw [simplify_class] at hX
  by_cases h : keepMax class_intersection_is_in
      (fun i => i = setNothing) (U.image simplify_class_intersection) = ∅
  · rw [if_pos h, Finset.mem_singleton] at hX
    subst hX
    exact goodE_singleton CClass.owl_Nothing
  · rw [if_neg h] at hX
    have := keepMax_subset class_intersection_is_in
      (fun i => i = setNothing) (U.image simplify_class_intersection) hX
    obtain ⟨Y, _, hY⟩ := Finset.mem_image.mp this
    rw [← hY]
    exact goodE_simplify_class_intersection Y

theorem goodE_image_members (U : Finset (Finset CClass)) :
    ∀ X ∈ U.image simplify_class_intersection, GoodE X := by
  intro X hX
  obtain ⟨Y, _, hY⟩ := Finset.mem_image.mp hX
  rw [← hY]
  exact goodE_simplify_class_intersection Y

/-- Members of a datatype `present` set are singletons (hence `GoodD`). -/
theorem datatype_present_members (U : Finset (Finset CDatatype)) :
    ∀ X ∈ datatype_present U, ∃ d, X = {d} := by
  intro X hX
  rw [datatype_present, Finset.mem_biUnion] at hX
  obtain ⟨Y, _, hY⟩ := hX
  cases h : simplify_datatype_intersection Y with
  | none => rw [h] at hY; simp [Option.elim] at hY
  | some r =>
    rw [h] at hY
    simp only [Option.elim, Finset.mem_singleton] at hY
    subst hY
    exact (goodD_simplify_datatype_intersection Y h).2

theorem goodD_datatype_present (U : Finset (Finset CDatatype)) :
    ∀ X ∈ datatype_present U, GoodD X := by
  intro X hX
  obtain ⟨d, hd⟩ := datatype_present_members U X hX
  rw [hd]
  exact goodD_singleton d

theorem goodD_simplify_datatype_members (U : Finset (Finset CDatatype)) :
    ∀ X ∈ simplify_datatype U, GoodD X := by
  intro X hX
  exact goodD_datatype_present U X
    (keepMax_subset datatype_intersection_is_in (fun _ => False) _ hX)

theorem simplify_datatype_members_singleton (U : Finset (Finset CDatatype)) :
    ∀ X ∈ simplify_datatype U, ∃ d, X = {d} := by
  intro X hX
  exact datatype_present_members U X
    (keepMax_subset datatype_intersection_is_in (fun _ => False) _ hX)


/-! ### Absorption: re-simplifying an already simplified side is harmless -/

theorem image_fix {alpha : Type} [DecidableEq alpha] {f : alpha → alpha} {s : Finset alpha}
    (h : ∀ x ∈ s, f x = x) : s.image f = s := by
  ext y
  simp only [Finset.mem_image]
  constructor
  · rintro ⟨x, hx, rfl⟩
    rw [h x hx]
    exact hx
  · intro hy
    exact ⟨y, hy, h y hy⟩

theorem image_const_mem {alpha beta : Type} [DecidableEq beta] {s : Finset alpha}
    {f : alpha → beta} {b : beta} (hs : s.Nonempty) (h : ∀ x ∈ s, f x = b) :
    s.image f = {b} := by
  ext y
  simp only [Finset.mem_image, Finset.mem_singleton]
  constructor
  · rintro ⟨x, hx, rfl⟩
    exact h x hx
  · rintro rfl
    obtain ⟨x, hx⟩ := hs
    exact ⟨x, hx, h x hx⟩

theorem simplify_class_eq (U : Finset (Finset CClass)) :
    simplify_class U =
      if keepMax class_intersection_is_in (fun i => i = setNothing)
          (U.image simplify_class_intersection) = ∅
        then {setNothing}
        else keepMax class_intersection_is_in (fun i => i = setNothing)
          (U.image simplify_class_intersection) := rfl

/-- Simplifying `simplify_class S ∪ T` is the same as simplifying `S ∪ T`. -/
theorem simplify_class_absorb (S T : Finset (Finset CClass)) :
    simplify_class (simplify_class S ∪ T) = simplify_class (S ∪ T) := by
  have himg : (simplify_class S ∪ T).image simplify_class_intersection
      = simplify_class S ∪ T.image simplify_class_intersection := by
    rw [Finset.image_union,
      image_fix (fun X hX =>
        simplify_class_intersection_fix (goodE_simplify_class_members S X hX))]
  by_cases hK : keepMax class_intersection_is_in (fun i => i = setNothing)
      (S.image simplify_class_intersection) = ∅
  · have hS : simplify_class S = {setNothing} := by
      rw [simplify_class_eq, if_pos hK]
    have hallbad : ∀ X ∈ S.image simplify_class_intersection, X = setNothing :=
      all_bad_of_keepMax_empty _ _ GoodE keepMaxAssumptionsC (goodE_image_members S) hK
    have h1 : keepMax class_intersection_is_in (fun i => i = setNothing)
        ((S ∪ T).image simplify_class_intersection)
        = keepMax class_intersection_is_in (fun i => i = setNothing)
          (T.image simplify_class_intersection) := by
      rw [Finset.image_union]
      exact keepMax_union_allbad _ _ GoodE keepMaxAssumptionsC
        (goodE_image_members S) (goodE_image_members T) hallbad
    have h2 : keepMax class_intersection_is_in (fun i => i = setNothing)
        ((simplify_class S ∪ T).image simplify_class_intersection)
        = keepMax class_intersection_is_in (fun i => i = setNothing)
          (T.image simplify_class_intersection) := by
      rw [himg, hS]
      refine keepMax_union_allbad _ _ GoodE keepMaxAssumptionsC ?_
        (goodE_image_members T) ?_
      · intro X hX
        rw [Finset.mem_singleton] at hX
        subst hX
        exact goodE_singleton _
      · intro X hX
        rwa [Finset.mem_singleton] at hX
    rw [simplify_class_eq (simplify_class S ∪ T), simplify_class_eq (S ∪ T), h1, h2]
  · have hS : simplify_class S = keepMax class_intersection_is_in
        (fun i => i = setNothing) (S.image simplify_class_intersection) := by
      rw [simplify_class_eq, if_neg hK]
    have h3 : keepMax class_intersection_is_in (fun i => i = setNothing)
        ((simplify_class S ∪ T).image simplify_class_intersection)
        = keepMax class_intersection_is_in (fun i => i = setNothing)
          ((S ∪ T).image simplify_class_intersection) := by
      rw [himg, hS, Finset.image_union]
      exact keepMax_absorb _ _ GoodE keepMaxAssumptionsC
        (goodE_image_members S) (goodE_image_members T)
    rw [simplify_class_eq (simplify_class S ∪ T), simplify_class_eq (S ∪ T), h3]

theorem datatype_present_union (S T : Finset (Finset CDatatype)) :
    datatype_present (S ∪ T) = datatype_present S ∪ datatype_present T := by
  ext X
  simp only [datatype_present, Finset.mem_biUnion, Finset.mem_union]
  constructor
  · rintro ⟨Y, hY | hY, hX⟩
    · exact Or.inl ⟨Y, hY, hX⟩
    · exact Or.inr ⟨Y, hY, hX⟩
  · rintro (⟨Y, hY, hX⟩ | ⟨Y, hY, hX⟩)
    · exact ⟨Y, Or.inl hY, hX⟩
    · exact ⟨Y, Or.inr hY, hX⟩

/-- `present` sets made only of singletons are fixpoints of `present`. -/
theorem datatype_present_of_singletons {U : Finset (Finset CDatatype)}
    (hU : ∀ X ∈ U, ∃ d, X = {d}) : datatype_present U = U := by
  ext X
  rw [datatype_present, Finset.mem_biUnion]
  constructor
  · rintro ⟨Y, hY, hX⟩
    obtain ⟨d, rfl⟩ := hU Y hY
    rw [simplify_datatype_intersection_fix] at hX
    simp only [Option.elim, Finset.mem_singleton] at hX
    rwa [hX]
  · intro hX
    obtain ⟨d, rfl⟩ := hU X hX
    refine ⟨{d}, hX, ?_⟩
    rw [simplify_datatype_intersection_fix]
    simp [Option.elim]

theorem datatype_present_fix (U : Finset (Finset CDatatype)) :
    datatype_present (simplify_datatype U) = simplify_datatype U :=
  datatype_present_of_singletons (simplify_datatype_members_singleton U)

/-- Simplifying `simplify_datatype S ∪ T` is the same as simplifying `S ∪ T`. -/
theorem simplify_datatype_absorb (S T : Finset (Finset CDatatype)) :
    simplify_datatype (simplify_datatype S ∪ T) = simplify_datatype (S ∪ T) := by
  show keepMax _ _ (datatype_present (simplify_datatype S ∪ T))
    = keepMax _ _ (datatype_present (S ∪ T))
  rw [datatype_present_union, datatype_present_union, datatype_present_fix]
  show keepMax _ _ (keepMax _ _ (datatype_present S) ∪ datatype_present T) = _
  exact keepMax_absorb _ _ GoodD keepMaxAssumptionsD
    (goodD_datatype_present S) (goodD_datatype_present T)

/-! ### The C1 lattice laws -/

theorem tyUnion_comm (a b : AtomicTy) : tyUnion a b = tyUnion b a := by
  rw [tyUnion, tyUnion, Finset.union_comm a.entity, Finset.union_comm a.literal]

theorem product_image_union_comm {alpha : Type} [DecidableEq alpha]
    (A B : Finset (Finset alpha)) :
    (A ×ˢ B).image (fun p => p.1 ∪ p.2) = (B ×ˢ A).image (fun p => p.1 ∪ p.2) := by
  ext X
  simp only [Finset.mem_image, Finset.mem_product]
  constructor
  · rintro ⟨⟨x, y⟩, ⟨hx, hy⟩, rfl⟩
    exact ⟨⟨y, x⟩, ⟨hy, hx⟩, Finset.union_comm y x⟩
  · rintro ⟨⟨y, x⟩, ⟨hy, hx⟩, rfl⟩
    exact ⟨⟨x, y⟩, ⟨hx, hy⟩, Finset.union_comm x y⟩

theorem tyInter_comm (a b : AtomicTy) : tyInter a b = tyInter b a := by
  rw [tyInter, tyInter, product_image_union_comm a.entity,
    product_image_union_comm a.literal]

theorem tyUnion_assoc (a b c : AtomicTy) :
    tyUnion (tyUnion a b) c = tyUnion a (tyUnion b c) := by
  have he : simplify_class (simplify_class (a.entity ∪ b.entity) ∪ c.entity)
      = simplify_class (a.entity ∪ simplify_class (b.entity ∪ c.entity)) :=
    calc simplify_class (simplify_class (a.entity ∪ b.entity) ∪ c.entity)
        = simplify_class ((a.entity ∪ b.entity) ∪ c.entity) :=
          simplify_class_absorb _ _
      _ = simplify_class ((b.entity ∪ c.entity) ∪ a.entity) := by
          rw [Finset.union_assoc, Finset.union_comm]
      _ = simplify_class (simplify_class (b.entity ∪ c.entity) ∪ a.entity) :=
          (simplify_class_absorb _ _).symm
      _ = simplify_class (a.entity ∪ simplify_class (b.entity ∪ c.entity)) := by
          rw [Finset.union_comm]
  have hl : simplify_datatype (simplify_datatype (a.literal ∪ b.literal) ∪ c.literal)
      = simplify_datatype (a.literal ∪ simplify_datatype (b.literal ∪ c.literal)) :=
    calc simplify_datatype (simplify_datatype (a.literal ∪ b.literal) ∪ c.literal)
        = simplify_datatype ((a.literal ∪ b.literal) ∪ c.literal) :=
          simplify_datatype_absorb _ _
      _ = simplify_datatype ((b.literal ∪ c.literal) ∪ a.literal) := by
          rw [Finset.union_assoc, Finset.union_comm]
      _ = simplify_datatype (simplify_datatype (b.literal ∪ c.literal) ∪ a.literal) :=
          (simplify_datatype_absorb _ _).symm
      _ = simplify_datatype (a.literal ∪ simplify_datatype (b.literal ∪ c.literal)) := by
          rw [Finset.union_comm]
  show AtomicTy.mk _ _ = AtomicTy.mk _ _
  rw [AtomicTy.mk.injEq]
  exact ⟨he, hl⟩

theorem tyBottom_eq : tyBottom = ⟨{setNothing}, ∅⟩ := by decide

theorem tyTop_eq : tyTop = ⟨{setThing}, {setLiteral}⟩ := by decide

/-- Unioning a class intersection with `{owl:Nothing}` simplifies to
`{owl:Nothing}` (owl:Nothing is a subclass of everything). -/
theorem simplify_class_intersection_nothing (X : Finset CClass) :
    simplify_class_intersection (X ∪ setNothing) = setNothing := by
  have hkeep : keepMax (fun a b => is_subclass_of b a) (fun _ => False)
      (X ∪ setNothing) = setNothing := by
    ext x
    rw [mem_keepMax]
    constructor
    · rintro ⟨hx, _, hmax⟩
      rw [setNothing, Finset.mem_singleton]
      exact hmax CClass.owl_Nothing
        (Finset.mem_union_right _ (Finset.mem_singleton_self _))
        (subclass_nothing_le x)
    · intro hx
      rw [setNothing, Finset.mem_singleton] at hx
      subst hx
      refine ⟨Finset.mem_union_right _ (Finset.mem_singleton_self _), not_false, ?_⟩
      intro j _ hle
      exact (subclass_le_nothing j hle).symm
  rw [simplify_class_intersection, hkeep, if_neg (by decide)]

/-- `a & bottom == bottom` whenever `a`'s entity union is nonempty, as is
the case for every constructed `_AtomicType`. -/
theorem tyInter_bottom (a : AtomicTy) (ha : a.entity.Nonempty) :
    tyInter a tyBottom = tyBottom := by
  rw [tyBottom_eq]
  show mkAtomicTy ((a.entity ×ˢ {setNothing}).image fun p => p.1 ∪ p.2)
      ((a.literal ×ˢ ∅).image fun p => p.1 ∪ p.2) = _
  have hent : (a.entity ×ˢ {setNothing}).image (fun p => p.1 ∪ p.2)
      = a.entity.image (fun X => X ∪ setNothing) := by
    ext Y
    simp only [Finset.mem_image, Finset.mem_product, Finset.mem_singleton]
    constructor
    · rintro ⟨⟨x, y⟩, ⟨hx, rfl⟩, rfl⟩
      exact ⟨x, hx, rfl⟩
    · rintro ⟨x, hx, rfl⟩
      exact ⟨⟨x, setNothing⟩, ⟨hx, rfl⟩, rfl⟩
  have hlit : (a.literal ×ˢ (∅ : Finset (Finset CDatatype))).image
      (fun p => p.1 ∪ p.2) = ∅ := by
    rw [Finset.product_empty, Finset.image_empty]
  rw [hent, hlit]
  have hpres : (a.entity.image fun X => X ∪ setNothing).image
      simplify_class_intersection = {setNothing} := by
    rw [Finset.image_image]
    exact image_const_mem ha fun X hX => simplify_class_intersection_nothing X
  have hemp : keepMax class_intersection_is_in (fun i => i = setNothing)
      ({setNothing} : Finset (Finset CClass)) = ∅ := by decide
  rw [mkAtomicTy, AtomicTy.mk.injEq]
  constructor
  · rw [simplify_class_eq, hpres, hemp]
    simp
  · show simplify_datatype ∅ = ∅
    decide

/-- The predicate cutting the class generators down to the `owl:Thing` cone
(this excludes `rdfs:Class` and `rdfs:Datatype`). -/
def ThingBounded (a : AtomicTy) : Prop :=
  ∀ X ∈ a.entity, ∀ c ∈ X, is_subclass_of c CClass.owl_Thing = true

/-- `a | top == top` for types whose entity members mention only subclasses of
`owl:Thing`. -/
theorem tyUnion_top (a : AtomicTy) (hg : ∀ X ∈ a.entity, GoodE X)
    (hl : ∀ X ∈ a.literal, ∃ d, X = {d}) (hb : ThingBounded a) :
    tyUnion a tyTop = tyTop := by
  rw [tyTop_eq]
  show mkAtomicTy (a.entity ∪ {setThing}) (a.literal ∪ {setLiteral}) = _
  have hge : ∀ X ∈ a.entity ∪ {setThing}, GoodE X := by
    intro X hX
    rcases Finset.mem_union.mp hX with h | h
    · exact hg X h
    · rw [Finset.mem_singleton] at h
      subst h
      exact goodE_singleton _
  have hpres : (a.entity ∪ {setThing}).image simplify_class_intersection
      = a.entity ∪ {setThing} :=
    image_fix fun X hX => simplify_class_intersection_fix (hge X hX)
  have hkeep : keepMax class_intersection_is_in (fun i => i = setNothing)
      (a.entity ∪ {setThing}) = {setThing} := by
    ext X
    rw [mem_keepMax]
    constructor
    · rintro ⟨hX, _, hmax⟩
      rw [Finset.mem_singleton]
      refine hmax setThing (Finset.mem_union_right _ (Finset.mem_singleton_self _)) ?_
      rw [class_intersection_is_in, decide_eq_true_eq]
      intro se hse
      refine ⟨CClass.owl_Thing, Finset.mem_singleton_self _, ?_⟩
      rcases Finset.mem_union.mp hX with h | h
      · exact hb X h se hse
      · rw [Finset.mem_singleton] at h
        subst h
        rw [setThing, Finset.mem_singleton] at hse
        subst hse
        exact subclass_refl _
    · intro hX
      rw [Finset.mem_singleton] at hX
      subst hX
      refine ⟨Finset.mem_union_right _ (Finset.mem_singleton_self _), by decide, ?_⟩
      intro j hj hR
      rw [class_intersection_is_in, decide_eq_true_eq] at hR
      obtain ⟨pe, hpe, hle⟩ := hR CClass.owl_Thing (Finset.mem_singleton_self _)
      have hpet : pe = CClass.owl_Thing := subclass_le_thing_of_thing pe hle
      subst hpet
      rcases Finset.mem_union.mp hj with h | h
      · -- j is a ThingBounded antichain containing owl:Thing, so j = {owl:Thing}
        have hsub : j ⊆ setThing := by
          intro c hc
          rw [setThing, Finset.mem_singleton]
          exact (hg j h).2 c hc CClass.owl_Thing hpe (hb j h c hc)
        rcases Finset.subset_singleton_iff.mp hsub with hj0 | hj1
        · exact absurd (hj0 ▸ hpe) (Finset.not_mem_empty _)
        · exact hj1.symm
      · rw [Finset.mem_singleton] at h
        exact h.symm
  have hlit : simplify_datatype (a.literal ∪ {setLiteral}) = {setLiteral} := by
    have hsing : ∀ X ∈ a.literal ∪ {setLiteral}, ∃ d, X = {d} := by
      intro X hX
      rcases Finset.mem_union.mp hX with h | h
      · exact hl X h
      · rw [Finset.mem_singleton] at h
        exact ⟨CDatatype.rdfs_Literal, h⟩
    rw [simplify_datatype, datatype_present_of_singletons hsing]
    ext X
    rw [mem_keepMax]
    constructor
    · rintro ⟨hX, _, hmax⟩
      rw [Finset.mem_singleton]
      refine hmax setLiteral (Finset.mem_union_right _ (Finset.mem_singleton_self _)) ?_
      rw [datatype_intersection_is_in, decide_eq_true_eq]
      intro se _
      exact ⟨CDatatype.rdfs_Literal, Finset.mem_singleton_self _, restriction_le_literal se⟩
    · intro hX
      rw [Finset.mem_singleton] at hX
      subst hX
      refine ⟨Finset.mem_union_right _ (Finset.mem_singleton_self _), not_false, ?_⟩
      intro j hj hR
      rw [datatype_intersection_is_in, decide_eq_true_eq] at hR
      obtain ⟨pe, hpe, hle⟩ := hR CDatatype.rdfs_Literal (Finset.mem_singleton_self _)
      have hpel : pe = CDatatype.rdfs_Literal := restriction_literal_le pe hle
      subst hpel
      obtain ⟨d, rfl⟩ := hsing j hj
      rw [Finset.mem_singleton] at hpe
      rw [setLiteral, hpe]
  rw [mkAtomicTy, AtomicTy.mk.injEq]
  constructor
  · rw [simplify_class_eq, hpres, hkeep]
    rw [if_neg (Finset.nonempty_iff_ne_empty.mp (Finset.singleton_nonempty _))]
  · exact hlit


/-! ### Types generated by the public constructors -/

/-- Type expressions over the public constructors `Type.from_entity`,
`Type.top()`, `Type.bottom()`, `|` and `&`. -/
inductive TypeExpr where
  | fromClass (c : CClass)
  | fromDatatype (d : CDatatype)
  | top
  | bot
  | union (a b : TypeExpr)
  | inter (a b : TypeExpr)
deriving DecidableEq

def evalTy : TypeExpr → AtomicTy
  | .fromClass c => tyFromClass c
  | .fromDatatype d => tyFromDatatype d
  | .top => tyTop
  | .bot => tyBottom
  | .union a b => tyUnion (evalTy a) (evalTy b)
  | .inter a b => tyInter (evalTy a) (evalTy b)

/-- The class generators of the expression stay inside the `owl:Thing` cone
(this excludes exactly `rdfs:Class` and `rdfs:Datatype`). -/
def exprThingBounded : TypeExpr → Bool
  | .fromClass c => is_subclass_of c CClass.owl_Thing
  | .fromDatatype _ => true
  | .top => true
  | .bot => true
  | .union a b => exprThingBounded a && exprThingBounded b
  | .inter a b => exprThingBounded a && exprThingBounded b

theorem evalTy_mk (e : TypeExpr) : ∃ E L, evalTy e = mkAtomicTy E L := by
  cases e with
  | fromClass c => exact ⟨_, _, rfl⟩
  | fromDatatype d => exact ⟨_, _, rfl⟩
  | top => exact ⟨_, _, rfl⟩
  | bot => exact ⟨_, _, rfl⟩
  | union a b => exact ⟨_, _, rfl⟩
  | inter a b => exact ⟨_, _, rfl⟩

theorem evalTy_entity_nonempty (e : TypeExpr) : (evalTy e).entity.Nonempty := by
  obtain ⟨E, L, hE⟩ := evalTy_mk e
  rw [hE]
  exact Finset.nonempty_iff_ne_empty.mpr (simplify_class_ne_empty E)

theorem evalTy_entity_good (e : TypeExpr) : ∀ X ∈ (evalTy e).entity, GoodE X := by
  obtain ⟨E, L, hE⟩ := evalTy_mk e
  rw [hE]
  exact goodE_simplify_class_members E

theorem evalTy_literal_singleton (e : TypeExpr) :
    ∀ X ∈ (evalTy e).literal, ∃ d, X = {d} := by
  obtain ⟨E, L, hE⟩ := evalTy_mk e
  rw [hE]
  exact simplify_datatype_members_singleton L

/-- Where the classes inside a simplified intersection can come from. -/
theorem simplify_class_intersection_elements (X : Finset CClass) :
    ∀ c ∈ simplify_class_intersection X, c ∈ X ∨ c = CClass.owl_Thing := by
  intro c hc
  rw [simplify_class_intersection] at hc
  by_cases h : keepMax (fun a b => is_subclass_of b a) (fun _ => False) X = ∅
  · rw [if_pos h] at hc
    rw [setThing, Finset.mem_singleton] at hc
    exact Or.inr hc
  · rw [if_neg h] at hc
    exact Or.inl (keepMax_subset _ _ _ hc)

/-- Where the classes inside a simplified union can come from. -/
theorem simplify_class_elements (U : Finset (Finset CClass)) :
    ∀ X ∈ simplify_class U, ∀ c ∈ X,
      (∃ Y ∈ U, c ∈ Y) ∨ c = CClass.owl_Thing ∨ c = CClass.owl_Nothing := by
  intro X hX c hc
  rw [simplify_class_eq] at hX
  by_cases h : keepMax class_intersection_is_in (fun i => i = setNothing)
      (U.image simplify_class_intersection) = ∅
  · rw [if_pos h, Finset.mem_singleton] at hX
    subst hX
    rw [setNothing, Finset.mem_singleton] at hc
    exact Or.inr (Or.inr hc)
  · rw [if_neg h] at hX
    obtain ⟨Y, hY, hYX⟩ := Finset.mem_image.mp (keepMax_subset _ _ _ hX)
    subst hYX
    rcases simplify_class_intersection_elements Y c hc with h1 | h1
    · exact Or.inl ⟨Y, hY, h1⟩
    · exact Or.inr (Or.inl h1)

theorem thingBounded_mk {E : Finset (Finset CClass)} {L : Finset (Finset CDatatype)}
    (hU : ∀ Y ∈ E, ∀ c ∈ Y, is_subclass_of c CClass.owl_Thing = true) :
    ThingBounded (mkAtomicTy E L) := by
  intro X hX c hc
  rcases simplify_class_elements E X hX c hc with ⟨Y, hY, h1⟩ | h | h
  · exact hU Y hY c h1
  · subst h; exact subclass_refl _
  · subst h; exact subclass_nothing_le _

theorem evalTy_thingBounded (e : TypeExpr) (he : exprThingBounded e = true) :
    ThingBounded (evalTy e) := by
  induction e with
  | fromClass c =>
    refine thingBounded_mk ?_
    intro Y hY d hd
    rw [Finset.mem_singleton] at hY
    subst hY
    rw [Finset.mem_singleton] at hd
    subst hd
    exact he
  | fromDatatype d0 =>
    refine thingBounded_mk ?_
    intro Y hY
    exact absurd hY (Finset.not_mem_empty Y)
  | top =>
    refine thingBounded_mk ?_
    intro Y hY d hd
    rw [Finset.mem_singleton] at hY
    subst hY
    exact absurd hd (Finset.not_mem_empty d)
  | bot =>
    refine thingBounded_mk ?_
    intro Y hY
    exact absurd hY (Finset.not_mem_empty Y)
  | union a b iha ihb =>
    rw [exprThingBounded, Bool.and_eq_true] at he
    refine thingBounded_mk ?_
    intro Y hY d hd
    rcases Finset.mem_union.mp hY with h1 | h1
    · exact iha he.1 Y h1 d hd
    · exact ihb he.2 Y h1 d hd
  | inter a b iha ihb =>
    rw [exprThingBounded, Bool.and_eq_true] at he
    refine thingBounded_mk ?_
    intro Y hY d hd
    obtain ⟨⟨y1, y2⟩, hmem, hY2⟩ := Finset.mem_image.mp hY
    rw [Finset.mem_product] at hmem
    subst hY2
    rcases Finset.mem_union.mp hd with h1 | h1
    · exact iha he.1 y1 hmem.1 d h1
    · exact ihb he.2 y2 hmem.2 d h1

/-- C1, counterexample: on the code, intersection of types is NOT associative,
and `a | top == top` fails for `a = Type.from_entity(rdfs_Class)`.  With
`a = from_entity(rdfs:Class)`, `b = a | from_entity(rdf:Property)` and
`c = from_entity(owl:Thing)`, `(a & b) & c` is `{{rdfs:Class, rdf:Property}}`
while `a & (b & c)` is `{{rdfs:Class, owl:Thing}}`. -/
theorem C1_counterexample :
    (tyInter (tyInter (tyFromClass CClass.rdfs_Class)
        (tyUnion (tyFromClass CClass.rdfs_Class) (tyFromClass CClass.rdf_Property)))
        (tyFromClass CClass.owl_Thing)
      ≠ tyInter (tyFromClass CClass.rdfs_Class)
        (tyInter (tyUnion (tyFromClass CClass.rdfs_Class) (tyFromClass CClass.rdf_Property))
          (tyFromClass CClass.owl_Thing)))
    ∧ tyUnion (tyFromClass CClass.rdfs_Class) tyTop ≠ tyTop := by
  constructor
  · decide
  · decide

/-- C1, amended: for every type built from `Type.from_entity`, `Type.top`,
`Type.bottom`, `|` and `&`: union and intersection are commutative, union is
associative, bottom absorbs in intersection, and `a | top == top` holds
provided the classes used to build `a` are subclasses of `owl:Thing`
(intersection is not associative, and `a | top == top` fails for types built
from `rdfs:Class` or `rdfs:Datatype`; see the counterexample). -/
theorem C1_lattice_laws (a b c : TypeExpr) :
    tyUnion (evalTy a) (evalTy b) = tyUnion (evalTy b) (evalTy a) ∧
    tyInter (evalTy a) (evalTy b) = tyInter (evalTy b) (evalTy a) ∧
    tyUnion (tyUnion (evalTy a) (evalTy b)) (evalTy c)
      = tyUnion (evalTy a) (tyUnion (evalTy b) (evalTy c)) ∧
    tyInter (evalTy a) tyBottom = tyBottom ∧
    (exprThingBounded a = true → tyUnion (evalTy a) tyTop = tyTop) := by
  refine ⟨tyUnion_comm _ _, tyInter_comm _ _, tyUnion_assoc _ _ _,
    tyInter_bottom _ (evalTy_entity_nonempty a), ?_⟩
  intro ha
  exact tyUnion_top _ (evalTy_entity_good a) (evalTy_literal_singleton a)
    (evalTy_thingBounded a ha)

/-- Witness for `C1_lattice_laws` at concrete types, discharging the
Thing-boundedness hypothesis. -/
theorem C1_lattice_laws_witness :
    tyUnion (evalTy (.fromClass CClass.schema_Person))
        (evalTy (.union (.fromDatatype CDatatype.xsd_string) .top))
      = tyUnion (evalTy (.union (.fromDatatype CDatatype.xsd_string) .top))
        (evalTy (.fromClass CClass.schema_Person)) ∧
    tyUnion (evalTy (.fromClass CClass.schema_Person)) tyTop = tyTop :=
  ⟨(C1_lattice_laws (.fromClass CClass.schema_Person)
      (.union (.fromDatatype CDatatype.xsd_string) .top) .bot).1,
    (C1_lattice_laws (.fromClass CClass.schema_Person)
      (.union (.fromDatatype CDatatype.xsd_string) .top) .bot).2.2.2.2 (by decide)⟩


/-! ### RDF terms (`owl.py`: `Entity`, `Property`, `Literal`) -/

/-- A literal (`owl.py` class `Literal`): a lexical form and a datatype.
`Literal.__eq__` compares exactly these two fields. -/
structure PLiteral where
  lexical : String
  dt : CDatatype
deriving DecidableEq

/-- An RDF term wrapped by `ValueFormula`: an entity (`Entity` and subclasses;
a `Property` also carries a domain and a range, and `score` is the `sameAs`
count for `_WikidataItem` and 0 for every other `Entity` subclass) or a
literal. -/
inductive RTerm where
  | entity (iri : String) (types : List CClass) (escore : Nat)
      (propData : Option (CClass × (CClass ⊕ CDatatype)))
  | lit (l : PLiteral)
deriving DecidableEq

/-- Python `==` on the wrapped terms: `Entity.__eq__` compares IRIs only,
`Literal.__eq__` compares lexical form and datatype. -/
def rtermEq : RTerm → RTerm → Bool
  | .entity i1 _ _ _, .entity i2 _ _ _ => i1 == i2
  | .lit l1, .lit l2 => l1 == l2
  | _, _ => false

def trueLit : PLiteral := ⟨"true", CDatatype.xsd_boolean⟩

def falseLit : PLiteral := ⟨"false", CDatatype.xsd_boolean⟩

/-! ### The formula model (`formula.py`) -/

/-- The four binary arithmetic constructors (`AddFormula`, `SubFormula`,
`MulFormula`, `DivFormula`). -/
inductive AOp where
  | add | sub | mul | div
deriving DecidableEq

/-- The four binary order constructors (`GreaterFormula`,
`GreaterOrEqualFormula`, `LowerFormula`, `LowerOrEqualFormula`). -/
inductive OOp where
  | gt | ge | lt | le
deriving DecidableEq

/-- The closed set of `Formula` variants of `formula.py`.  `And`/`Or`
arguments model the `frozenset` by a duplicate-free list in insertion
order. -/
inductive Formula where
  | var (name : String)
  | val (term : RTerm) (origStr : Option String)
  | arith (op : AOp) (left right : Formula)
  | and (args : List Formula)
  | or (args : List Formula)
  | not (arg : Formula)
  | eq (left right : Formula)
  | ord (op : OOp) (left right : Formula)
  | existsF (argument : String) (body : Formula)
  | triple (subject predicate objct : Formula)

mutual

def fsize : Formula → Nat
  | .var _ => 1
  | .val _ _ => 1
  | .arith _ l r => 1 + fsize l + fsize r
  | .and args => 1 + fsizeList args
  | .or args => 1 + fsizeList args
  | .not a => 1 + fsize a
  | .eq l r => 1 + fsize l + fsize r
  | .ord _ l r => 1 + fsize l + fsize r
  | .existsF _ b => 1 + fsize b
  | .triple s p o => 1 + fsize s + fsize p + fsize o

def fsizeList : List Formula → Nat
  | [] => 0
  | f :: fs => fsize f + fsizeList fs

end

theorem fsize_pos (f : Formula) : 0 < fsize f := by
  cases f <;> simp [fsize] <;> omega

theorem fsize_le_of_mem {f : Formula} {l : List Formula} (h : f ∈ l) :
    fsize f ≤ fsizeList l := by
  induction l with
  | nil => cases h
  | cons a as ih =>
    rcases List.mem_cons.mp h with h1 | h1
    · subst h1; simp [fsizeList]
    · have := ih h1
      simp only [fsizeList]
      omega


mutual

/-- Structural equality test for formulas (used to model `frozenset`
deduplication and to decide equality goals). -/
def fbeq : Formula → Formula → Bool
  | .var a, .var b => a == b
  | .val t1 o1, .val t2 o2 => t1 == t2 && o1 == o2
  | .arith op1 l1 r1, .arith op2 l2 r2 => op1 == op2 && fbeq l1 l2 && fbeq r1 r2
  | .and as, .and bs => fbeqList as bs
  | .or as, .or bs => fbeqList as bs
  | .not a, .not b => fbeq a b
  | .eq l1 r1, .eq l2 r2 => fbeq l1 l2 && fbeq r1 r2
  | .ord op1 l1 r1, .ord op2 l2 r2 => op1 == op2 && fbeq l1 l2 && fbeq r1 r2
  | .existsF x1 b1, .existsF x2 b2 => x1 == x2 && fbeq b1 b2
  | .triple s1 p1 o1, .triple s2 p2 o2 => fbeq s1 s2 && fbeq p1 p2 && fbeq o1 o2
  | _, _ => false

def fbeqList : List Formula → List Formula → Bool
  | [], [] => true
  | a :: as, b :: bs => fbeq a b && fbeqList as bs
  | _, _ => false

end

theorem fbeq_iff_eq : ∀ (a b : Formula), fbeq a b = true ↔ a = b := by
  have H : ∀ (n : Nat) (a b : Formula), fsize a ≤ n → (fbeq a b = true ↔ a = b) := by
    intro n
    induction n with
    | zero =>
      intro a b h
      exact absurd h (by have := fsize_pos a; omega)
    | succ n ih =>
      have hlist : ∀ (as bs : List Formula), fsizeList as ≤ n →
          (fbeqList as bs = true ↔ as = bs) := by
        intro as
        induction as with
        | nil =>
          intro bs _
          cases bs <;> simp [fbeqList]
        | cons a as iha =>
          intro bs h
          simp only [fsizeList] at h
          have hfa := fsize_pos a
          cases bs with
          | nil => simp [fbeqList]
          | cons b bs =>
            rw [fbeqList, Bool.and_eq_true, ih a b (by omega), iha bs (by omega)]
            constructor
            · rintro ⟨rfl, rfl⟩
              rfl
            · intro h2
              injection h2 with h3 h4
              exact ⟨h3, h4⟩
      intro a b ha
      cases a with
      | var n1 => cases b <;> simp [fbeq]
      | val t1 o1 => cases b <;> simp [fbeq]
      | arith op1 l1 r1 =>
        cases b
        case arith op2 l2 r2 =>
          simp only [fsize] at ha
          simp only [fbeq, Bool.and_eq_true]
          rw [ih l1 l2 (by omega), ih r1 r2 (by omega)]
          simp [and_assoc]
        all_goals simp [fbeq]
      | and as =>
        cases b
        case and bs =>
          simp only [fsize] at ha
          simp only [fbeq]
          rw [hlist as bs (by omega)]
          simp
        all_goals simp [fbeq]
      | or as =>
        cases b
        case or bs =>
          simp only [fsize] at ha
          simp only [fbeq]
          rw [hlist as bs (by omega)]
          simp
        all_goals simp [fbeq]
      | not a1 =>
        cases b
        case not b1 =>
          simp only [fsize] at ha
          simp only [fbeq]
          rw [ih a1 b1 (by omega)]
          simp
        all_goals simp [fbeq]
      | eq l1 r1 =>
        cases b
        case eq l2 r2 =>
          simp only [fsize] at ha
          simp only [fbeq, Bool.and_eq_true]
          rw [ih l1 l2 (by omega), ih r1 r2 (by omega)]
          simp
        all_goals simp [fbeq]
      | ord op1 l1 r1 =>
        cases b
        case ord op2 l2 r2 =>
          simp only [fsize] at ha
          simp only [fbeq, Bool.and_eq_true]
          rw [ih l1 l2 (by omega), ih r1 r2 (by omega)]
          simp [and_assoc]
        all_goals simp [fbeq]
      | existsF x1 b1 =>
        cases b
        case existsF x2 b2 =>
          simp only [fsize] at ha
          simp only [fbeq, Bool.and_eq_true]
          rw [ih b1 b2 (by omega)]
          simp
        all_goals simp [fbeq]
      | triple s1 p1 o1 =>
        cases b
        case triple s2 p2 o2 =>
          simp only [fsize] at ha
          simp only [fbeq, Bool.and_eq_true]
          rw [ih s1 s2 (by omega), ih p1 p2 (by omega), ih o1 o2 (by omega)]
          simp [and_assoc]
        all_goals simp [fbeq]
  intro a b
  exact H (fsize a) a b (Nat.le_refl _)

instance : DecidableEq Formula := fun a b =>
  decidable_of_iff (fbeq a b = true) (fbeq_iff_eq a b)

instance : BEq Formula := ⟨fbeq⟩

/-- `true_formula = ValueFormula(XSDBooleanLiteral(True))`. -/
def true_formula : Formula := .val (.lit trueLit) none

def false_formula : Formula := .val (.lit falseLit) none

/-- `arg == true_formula` as Python evaluates it: only a `ValueFormula`
wrapping an equal term is `==` to the constant. -/
def isTrueVal : Formula → Bool
  | .val t _ => rtermEq t (.lit trueLit)
  | _ => false

def isFalseVal : Formula → Bool
  | .val t _ => rtermEq t (.lit falseLit)
  | _ => false

/-- `something == variable` where the right side is a `VariableFormula`: only
a variable of the same name compares equal. -/
def isVarNamed : Formula → String → Bool
  | .var n, x => n == x
  | _, _ => false

mutual

/-- `Term.score` per class: `VariableFormula` is 0; `ValueFormula` is the
entity score, or 1 for a literal; `Not` and `Exists` are the score of their
sub-formula; `And`/`Or` the max over their arguments; binary operators the
max of both operands; `TripleFormula` the max of subject and object only (the
predicate is not consulted). -/
def score : Formula → Nat
  | .var _ => 0
  | .val (.entity _ _ s _) _ => s
  | .val (.lit _) _ => 1
  | .arith _ l r => max (score l) (score r)
  | .and args => scoreList args
  | .or args => scoreList args
  | .not a => score a
  | .eq l r => max (score l) (score r)
  | .ord _ l r => max (score l) (score r)
  | .existsF _ b => score b
  | .triple s _ o => max (score s) (score o)

def scoreList : List Formula → Nat
  | [] => 0
  | f :: fs => max (score f) (scoreList fs)

end

/-! ### Types of formulas -/

def literal_type : AtomicTy := tyFromDatatype CDatatype.rdfs_Literal

def property_type : AtomicTy := tyFromClass CClass.rdf_Property

def boolean_type : AtomicTy := tyFromDatatype CDatatype.xsd_boolean

def numeric_type : AtomicTy := tyFromDatatype CDatatype.platypus_numeric

def calendar_type : AtomicTy := tyFromDatatype CDatatype.platypus_calendar

def duration_type : AtomicTy := tyFromDatatype CDatatype.xsd_duration

/-- `ValueFormula.type`: for an entity, the union of the types of its
`types` sequence (always nonempty in `owl.py`; `reduce` would raise on an
empty one, modelled as bottom); for a literal, its datatype. -/
def rtermType : RTerm → AtomicTy
  | .entity _ [] _ _ => tyBottom
  | .entity _ (t :: ts) _ _ =>
    ts.foldl (fun acc c => tyUnion acc (tyFromClass c)) (tyFromClass t)
  | .lit l => tyFromDatatype l.dt

/-- `Term.type` per class. -/
def typeOf : Formula → AtomicTy
  | .var _ => tyTop
  | .val t _ => rtermType t
  | .arith _ _ _ => numeric_type
  | .and _ => boolean_type
  | .or _ => boolean_type
  | .not _ => boolean_type
  | .eq _ _ => boolean_type
  | .ord _ _ _ => boolean_type
  | .existsF _ _ => boolean_type
  | .triple _ _ _ => boolean_type

/-- `BinaryOrderOperatorFormula._get_type_for_ordering`. -/
def orderingType (f : Formula) : AtomicTy :=
  let t := typeOf f
  let r := tyBottom
  let r := if tyInter t numeric_type ≠ tyBottom then tyUnion r numeric_type else r
  let r := if tyInter t calendar_type ≠ tyBottom then tyUnion r calendar_type else r
  if tyInter t duration_type ≠ tyBottom then tyUnion r duration_type else r

/-! ### `_TypeForVariables`: a dict defaulting to `Type.top()` -/

abbrev VT := List (String × AtomicTy)

def vtGet (m : VT) (x : String) : AtomicTy :=
  match m.find? (fun p => p.1 == x) with
  | some p => p.2
  | none => tyTop

def vtSet (m : VT) (x : String) (t : AtomicTy) : VT :=
  if m.any (fun p => p.1 == x) then
    m.map (fun p => if p.1 == x then (x, t) else p)
  else m ++ [(x, t)]

/-- `__delitem__`: remove the entry if present. -/
def vtDel (m : VT) (x : String) : VT := m.filter (fun p => p.1 != x)

/-- `_TypeForVariables.__and__`: `result[v] &= t` for every entry of
`other`. -/
def vtAnd (m other : VT) : VT :=
  other.foldl (fun acc p => vtSet acc p.1 (tyInter (vtGet acc p.1) p.2)) m

/-- `_TypeForVariables.__or__`. -/
def vtOr (m other : VT) : VT :=
  other.foldl (fun acc p => vtSet acc p.1 (tyUnion (vtGet acc p.1) p.2)) m

def fromRange : CClass ⊕ CDatatype → AtomicTy
  | .inl c => tyFromClass c
  | .inr d => tyFromDatatype d

mutual

/-- `Term._variables_types` per class.  `VariableFormula`, `ValueFormula` and
`NotFormula` use the `Term` default (an empty dict); `And` folds `&` over the
argument dicts and `Or` folds `|` (`reduce` raises on no arguments, modelled
as the empty dict); `Exists` deletes its bound variable. -/
def varTypes : Formula → VT
  | .var _ => []
  | .val _ _ => []
  | .arith _ l r =>
    let result := vtAnd (varTypes l) (varTypes r)
    match l with
    | .var n => vtSet result n (tyInter (vtGet result n) numeric_type)
    | _ =>
      match r with
      | .var n => vtSet result n (tyInter (vtGet result n) numeric_type)
      | _ => result
  | .and args => vtReduceAnd args
  | .or args => vtReduceOr args
  | .not _ => []
  | .eq l r =>
    let result := vtAnd (varTypes l) (varTypes r)
    let result :=
      match l with
      | .var n => vtSet result n (tyInter (vtGet result n) (typeOf r))
      | _ => result
    match r with
    | .var n => vtSet result n (tyInter (vtGet result n) (typeOf l))
    | _ => result
  | .ord _ l r =>
    let result := vtAnd (varTypes l) (varTypes r)
    let operandType := tyInter (orderingType l) (orderingType r)
    let result :=
      match l with
      | .var n => vtSet result n (tyInter (vtGet result n) operandType)
      | _ => result
    match r with
    | .var n => vtSet result n (tyInter (vtGet result n) operandType)
    | _ => result
  | .existsF x b => vtDel (varTypes b) x
  | .triple s p o =>
    let result : VT := []
    let result :=
      match s with
      | .var n => vtSet result n (tyInter (vtGet result n) (tyFromClass CClass.owl_Thing))
      | _ => result
    let result :=
      match p with
      | .var n => vtSet result n (tyInter (vtGet result n) (tyFromClass CClass.rdf_Property))
      | _ => result
    match p with
    | .val (.entity _ _ _ (some (dom, rng))) _ =>
      let result :=
        match s with
        | .var n => vtSet result n (tyInter (vtGet result n) (tyFromClass dom))
        | _ => result
      match o with
      | .var n => vtSet result n (tyInter (vtGet result n) (fromRange rng))
      | _ => result
    | _ => result
termination_by f => 2 * fsize f
decreasing_by
  all_goals simp_wf
  all_goals simp only [fsize, fsizeList]
  all_goals omega

def vtReduceAnd : List Formula → VT
  | [] => []
  | f :: fs => vtFoldAnd (varTypes f) fs
termination_by l => 2 * fsizeList l + 1
decreasing_by
  all_goals simp_wf
  all_goals simp only [fsize, fsizeList]
  all_goals (try have := fsize_pos f)
  all_goals omega

def vtFoldAnd : VT → List Formula → VT
  | acc, [] => acc
  | acc, f :: fs => vtFoldAnd (vtAnd acc (varTypes f)) fs
termination_by _ l => 2 * fsizeList l + 1
decreasing_by
  all_goals simp_wf
  all_goals simp only [fsize, fsizeList]
  all_goals (try have := fsize_pos f)
  all_goals omega

def vtReduceOr : List Formula → VT
  | [] => []
  | f :: fs => vtFoldOr (varTypes f) fs
termination_by l => 2 * fsizeList l + 1
decreasing_by
  all_goals simp_wf
  all_goals simp only [fsize, fsizeList]
  all_goals (try have := fsize_pos f)
  all_goals omega

def vtFoldOr : VT → List Formula → VT
  | acc, [] => acc
  | acc, f :: fs => vtFoldOr (vtOr acc (varTypes f)) fs
termination_by _ l => 2 * fsizeList l + 1
decreasing_by
  all_goals simp_wf
  all_goals simp only [fsize, fsizeList]
  all_goals (try have := fsize_pos f)
  all_goals omega

end


/-! ### Self-normalizing constructors -/

/-- Python exception kinds raised by the modelled code, plus a fuel marker for
the substitution cluster. -/
inductive PyErr where
  | valueError (msg : String)
  | typeError (msg : String)
  | indexError (msg : String)
  | evalError (msg : String)
  | fuelExhausted
deriving DecidableEq

/-- The flattening step of `OrFormula.__init__`: inline `Or` arguments, drop
`false`. -/
def orArgsOf : Formula → List Formula
  | .or as => as
  | a => if isFalseVal a then [] else [a]

/-- `OrFormula.__new__` + `OrFormula.__init__`: `true` short-circuits, `false`
is dropped, no argument means `false`, a single argument is returned as is,
otherwise the arguments are flattened and deduplicated (`frozenset`). -/
def mkOr (args : List Formula) : Formula :=
  if args.any isTrueVal then true_formula
  else
    match args.filter (fun a => !(isFalseVal a)) with
    | [] => false_formula
    | [x] => x
    | xs => .or ((xs.flatMap orArgsOf).eraseDups)

/-- The flattening step of `AndFormula.__init__`. -/
def andArgsOf : Formula → List Formula
  | .and as => as
  | a => if isTrueVal a then [] else [a]

/-- The clause-collection loop of `AndFormula.__new__`: skip `true`, signal
`none` on `false`, and distribute over `Or` arguments. -/
def collectClausesAux : List (List Formula) → List Formula →
    Option (List (List Formula))
  | clauses, [] => some clauses
  | clauses, a :: rest =>
    if isTrueVal a then collectClausesAux clauses rest
    else if isFalseVal a then none
    else
      match a with
      | .or as =>
        collectClausesAux (clauses.flatMap (fun c => as.map (fun a2 => c ++ [a2]))) rest
      | _ => collectClausesAux (clauses.map (fun c => c ++ [a])) rest

def collectClauses (args : List Formula) : Option (List (List Formula)) :=
  collectClausesAux [[]] args

/-- `AndFormula.__new__` + `AndFormula.__init__`, fuelled for the recursion
through the distribution over `Or`; the wrapper `mkAnd` supplies more fuel
than the recursion can consume, so the `0` case is unreachable. -/
def mkAndFuel : Nat → List Formula → Formula
  | 0, args => .and args
  | n + 1, args =>
    match collectClauses args with
    | none => false_formula
    | some clauses =>
      if clauses.length > 1 then mkOr (clauses.map (fun c => mkAndFuel n c))
      else
        match clauses with
        | [c] =>
          match c with
          | [] => true_formula
          | [x] => x
          | xs => .and ((xs.flatMap andArgsOf).eraseDups)
        | _ => true_formula

def mkAnd (args : List Formula) : Formula := mkAndFuel (fsizeList args + 1) args

/-- `NotFormula.__new__`: constant folding, double negation, De Morgan. -/
def mkNot (a : Formula) : Formula :=
  if isTrueVal a then false_formula
  else if isFalseVal a then true_formula
  else
    match a with
    | .not inner => inner
    | .and as => mkOr (as.attach.map (fun x => mkNot x.1))
    | .or as => mkAnd (as.attach.map (fun x => mkNot x.1))
    | other => .not other
termination_by fsize a
decreasing_by
  all_goals simp_wf
  all_goals simp only [fsize]
  all_goals (have h := fsize_le_of_mem x.2; omega)

/-- `BinaryArithmeticOperatorFormula.__init__`: both operands must intersect
the numeric type non-trivially, else `ValueError`. -/
def mkArith (op : AOp) (l r : Formula) : Except PyErr Formula :=
  if tyInter (typeOf l) numeric_type = tyBottom then
    .error (.valueError ("Arithmetic operators expects numeric left operand"))
  else if tyInter (typeOf r) numeric_type = tyBottom then
    .error (.valueError ("Arithmetic operators expects numeric right operand"))
  else .ok (.arith op l r)

/-- `BinaryOrderOperatorFormula.__init__`. -/
def mkOrd (op : OOp) (l r : Formula) : Except PyErr Formula :=
  if orderingType l = tyBottom then
    .error (.valueError ("Order operators expects an orderable left operand"))
  else if orderingType r = tyBottom then
    .error (.valueError ("Order operators expects and orderable right operand"))
  else .ok (.ord op l r)

/-- `TripleFormula.__init__`: the subject must not be literal-typed and the
predicate must intersect `rdf:Property`. -/
def mkTriple (s p o : Formula) : Except PyErr Formula :=
  if tyLE (typeOf s) literal_type then
    .error (.valueError ("Triple subject should not be a literal"))
  else if tyInter (typeOf p) property_type = tyBottom then
    .error (.valueError ("Triple predicate should be instance of rdf:Property"))
  else .ok (.triple s p o)

/-- The scan of `ExistsFormula.__new__` over the conjuncts of an `And` body:
the first equality child one of whose sides is the bound variable, returning
the other side. -/
def findEqChild (y : String) : List Formula → Option Formula
  | [] => none
  | .eq l r :: rest =>
    if isVarNamed l y then some r
    else if isVarNamed r y then some l
    else findEqChild y rest
  | _ :: rest => findEqChild y rest


/-! ### Substitution, equality and the `Exists` constructor

`Formula.substitute` rebuilds each node through its constructor;
`ExistsFormula.__new__` itself substitutes (projection elimination), and
`EqualityFormula.__new__` compares its operands with `==`, whose `Exists`
case substitutes again (alpha-equivalence).  This genuine mutual recursion is
fuelled: the fuel is only consumed when crossing from one of these functions
into another in a way that can grow the term, so plain traversals never
exhaust it. -/

mutual

/-- `Term.substitute(var, formula)` per class. -/
def substF : Nat → Formula → String → Formula → Except PyErr Formula
  | _, .var name, x, r => if name == x then .ok r else .ok (.var name)
  | _, .val t o, _, _ => .ok (.val t o)
  | n, .arith op l rr, x, r => do
    let l2 ← substF n l x r
    let r2 ← substF n rr x r
    mkArith op l2 r2
  | n, .and args, x, r => do
    let args2 ← substList n args x r
    .ok (mkAnd args2)
  | n, .or args, x, r => do
    let args2 ← substList n args x r
    .ok (mkOr args2)
  | n, .not a, x, r => do
    let a2 ← substF n a x r
    .ok (mkNot a2)
  | n, .eq l rr, x, r => do
    let l2 ← substF n l x r
    let r2 ← substF n rr x r
    match n with
    | 0 => .error .fuelExhausted
    | m + 1 => .ok (mkEqF m l2 r2)
  | n, .ord op l rr, x, r => do
    let l2 ← substF n l x r
    let r2 ← substF n rr x r
    mkOrd op l2 r2
  | n, .existsF y b, x, r =>
    if x == y then .ok (.existsF y b)
    else do
      let b2 ← substF n b x r
      match n with
      | 0 => .error .fuelExhausted
      | m + 1 => mkExistsF m y b2
  | n, .triple sj p o, x, r => do
    let s2 ← substF n sj x r
    let p2 ← substF n p x r
    let o2 ← substF n o x r
    mkTriple s2 p2 o2
termination_by n f x r => (n, 8 * fsize f + 1)
decreasing_by
  all_goals simp_wf
  all_goals (try simp only [fsize, fsizeList])
  all_goals
    first
      | (apply Prod.Lex.left; omega)
      | (apply Prod.Lex.right
         try have := fsize_pos a
         try have := fsize_pos b
         omega)

def substList : Nat → List Formula → String → Formula → Except PyErr (List Formula)
  | _, [], _, _ => .ok []
  | n, a :: rest, x, r => do
    let a2 ← substF n a x r
    let rest2 ← substList n rest x r
    .ok (a2 :: rest2)
termination_by n l x r => (n, 8 * fsizeList l + 8)
decreasing_by
  all_goals simp_wf
  all_goals (try simp only [fsize, fsizeList])
  all_goals
    first
      | (apply Prod.Lex.left; omega)
      | (apply Prod.Lex.right
         try have := fsize_pos a
         try have := fsize_pos b
         omega)

/-- Python `==` on formulas (`__eq__` per class): symmetric for `Add`, `Mul`
and `Equality`; set equality for `And`/`Or`; alpha-equivalence, via
substitution, for `Exists`. -/
def feqF : Nat → Formula → Formula → Bool
  | _, .var a, .var b => a == b
  | _, .val t1 _, .val t2 _ => rtermEq t1 t2
  | n, .arith op1 l1 r1, .arith op2 l2 r2 =>
    op1 == op2 &&
      (match op1 with
       | .add => (feqF n l1 l2 && feqF n r1 r2) || (feqF n l1 r2 && feqF n r1 l2)
       | .mul => (feqF n l1 l2 && feqF n r1 r2) || (feqF n l1 r2 && feqF n r1 l2)
       | _ => feqF n l1 l2 && feqF n r1 r2)
  | n, .and as, .and bs => feqAll n as bs && feqAllR n as bs
  | n, .or as, .or bs => feqAll n as bs && feqAllR n as bs
  | n, .not a, .not b => feqF n a b
  | n, .eq l1 r1, .eq l2 r2 =>
    (feqF n l1 l2 && feqF n r1 r2) || (feqF n l1 r2 && feqF n r1 l2)
  | n, .ord op1 l1 r1, .ord op2 l2 r2 => op1 == op2 && feqF n l1 l2 && feqF n r1 r2
  | n, .existsF x1 b1, .existsF x2 b2 =>
    (match n with
     | 0 => false
     | m + 1 =>
       match substF m b2 x2 (.var x1) with
       | .ok nb => feqF m b1 nb
       | .error _ => false)
  | n, .triple s1 p1 o1, .triple s2 p2 o2 =>
    feqF n s1 s2 && feqF n p1 p2 && feqF n o1 o2
  | _, _, _ => false
termination_by n a b => (n, 8 * (fsize a + fsize b) + 2)
decreasing_by
  all_goals simp_wf
  all_goals (try simp only [fsize, fsizeList])
  all_goals
    first
      | (apply Prod.Lex.left; omega)
      | (apply Prod.Lex.right
         try have := fsize_pos a
         try have := fsize_pos b
         omega)

def feqAny : Nat → Formula → List Formula → Bool
  | _, _, [] => false
  | n, a, b :: bs => feqF n a b || feqAny n a bs
termination_by n a bs => (n, 8 * (fsize a + fsizeList bs) + 3)
decreasing_by
  all_goals simp_wf
  all_goals (try simp only [fsize, fsizeList])
  all_goals
    first
      | (apply Prod.Lex.left; omega)
      | (apply Prod.Lex.right
         try have := fsize_pos a
         try have := fsize_pos b
         omega)

def feqAnyR : Nat → List Formula → Formula → Bool
  | _, [], _ => false
  | n, a :: as, b => feqF n a b || feqAnyR n as b
termination_by n as b => (n, 8 * (fsizeList as + fsize b) + 3)
decreasing_by
  all_goals simp_wf
  all_goals (try simp only [fsize, fsizeList])
  all_goals
    first
      | (apply Prod.Lex.left; omega)
      | (apply Prod.Lex.right
         try have := fsize_pos a
         try have := fsize_pos b
         omega)

def feqAll : Nat → List Formula → List Formula → Bool
  | _, [], _ => true
  | n, a :: as, bs => feqAny n a bs && feqAll n as bs
termination_by n as bs => (n, 8 * (fsizeList as + fsizeList bs) + 4)
decreasing_by
  all_goals simp_wf
  all_goals (try simp only [fsize, fsizeList])
  all_goals
    first
      | (apply Prod.Lex.left; omega)
      | (apply Prod.Lex.right
         try have := fsize_pos a
         try have := fsize_pos b
         omega)

def feqAllR : Nat → List Formula → List Formula → Bool
  | _, _, [] => true
  | n, as, b :: bs => feqAnyR n as b && feqAllR n as bs
termination_by n as bs => (n, 8 * (fsizeList as + fsizeList bs) + 4)
decreasing_by
  all_goals simp_wf
  all_goals (try simp only [fsize, fsizeList])
  all_goals
    first
      | (apply Prod.Lex.left; omega)
      | (apply Prod.Lex.right
         try have := fsize_pos a
         try have := fsize_pos b
         omega)

/-- `EqualityFormula.__new__`: equal operands fold to `true`, two distinct
values fold to `false`. -/
def mkEqF (n : Nat) (l r : Formula) : Formula :=
  if feqF n l r then true_formula
  else
    match l, r with
    | .val t1 o1, .val t2 o2 => false_formula
    | _, _ => .eq l r
termination_by (n, 8 * (fsize l + fsize r) + 5)
decreasing_by
  all_goals simp_wf
  all_goals (try simp only [fsize, fsizeList])
  all_goals
    first
      | (apply Prod.Lex.left; omega)
      | (apply Prod.Lex.right
         try have := fsize_pos a
         try have := fsize_pos b
         omega)

def existsList : Nat → String → List Formula → Except PyErr (List Formula)
  | _, _, [] => .ok []
  | n, y, a :: rest => do
    let e ← mkExistsF n y a
    let es ← existsList n y rest
    .ok (e :: es)
termination_by n y l => (n, 8 * fsizeList l + 14)
decreasing_by
  all_goals simp_wf
  all_goals (try simp only [fsize, fsizeList])
  all_goals
    first
      | (apply Prod.Lex.left; omega)
      | (apply Prod.Lex.right
         try have := fsize_pos a
         try have := fsize_pos b
         omega)

/-- `ExistsFormula.__new__`: constant bodies pass through; the quantifier
distributes over `Or`; an equality pinning the bound variable (directly or
as a conjunct) is eliminated by substitution; a bottom-typed bound variable
collapses the formula to `false`. -/
def mkExistsF (n : Nat) (y : String) (b : Formula) : Except PyErr Formula :=
  if isTrueVal b || isFalseVal b then .ok b
  else
    match b with
    | .or args => do
      let rs ← existsList n y args
      .ok (mkOr rs)
    | .eq l r =>
      if isVarNamed l y then substF n (.eq l r) y r
      else if isVarNamed r y then substF n (.eq l r) y l
      else
        if vtGet (varTypes (.eq l r)) y = tyBottom then .ok false_formula
        else .ok (.existsF y (.eq l r))
    | .and args =>
      (match findEqChild y args with
       | some repl => substF n (.and args) y repl
       | none =>
         if vtGet (varTypes (.and args)) y = tyBottom then .ok false_formula
         else .ok (.existsF y (.and args)))
    | other =>
      if vtGet (varTypes other) y = tyBottom then .ok false_formula
      else .ok (.existsF y other)
termination_by (n, 8 * fsize b + 7)
decreasing_by
  all_goals simp_wf
  all_goals (try simp only [fsize, fsizeList])
  all_goals
    first
      | (apply Prod.Lex.left; omega)
      | (apply Prod.Lex.right
         try have := fsize_pos a
         try have := fsize_pos b
         omega)

end


/-! ### `Select`, `Tuple` and `Term` -/

/-- `Select(args, body)`: a named projection.  The body is a `Formula` (the
nested-`Select` branch of `Select.__init__` is deprecated dead code and not
representable here). -/
structure SelectT where
  args : List String
  body : Formula
deriving DecidableEq

/-- `Select.substitute`: variable shadowing short-circuits, otherwise the
body is substituted. -/
def substSelect (n : Nat) (s : SelectT) (x : String) (r : Formula) :
    Except PyErr SelectT :=
  if s.args.contains x then .ok s
  else do
    let b ← substF n s.body x r
    .ok ⟨s.args, b⟩

/-- `Select.bind(key, value)`: the `key` parameter is not used by the body of
the method; the first positional argument is always the one bound.  With one
argument the substituted body is returned, otherwise a `Select` over the
remaining arguments.  (With no argument at all, `self.args[0]` raises an
`IndexError`.) -/
def bindSelect (n : Nat) (s : SelectT) (key : Int) (value : Formula) :
    Except PyErr (Formula ⊕ SelectT) :=
  match s.args with
  | [] => .error (.indexError ("tuple index out of range"))
  | a :: rest =>
    if rest.isEmpty then (substF n s.body a value).map Sum.inl
    else (substF n s.body a value).map (fun b => Sum.inr ⟨rest, b⟩)

/-- `Select.__call__(value)`: binds the first variable via `bind(0, value)`. -/
def callSelect (n : Nat) (s : SelectT) (value : Formula) :
    Except PyErr (Formula ⊕ SelectT) :=
  bindSelect n s 0 value

/-- A `Term`: a formula, a tuple of terms, or a select. -/
inductive PTerm where
  | ofFormula (f : Formula)
  | tuple (elems : List PTerm)
  | select (s : SelectT)

/-- `Tuple.__new__`: a one-element tuple is unwrapped. -/
def mkTuple : List PTerm → PTerm
  | [e] => e
  | es => .tuple es

mutual

/-- `Term.score` on terms: `Tuple` takes the max over its elements, `Select`
the score of its body. -/
def ptermScore : PTerm → Nat
  | .ofFormula f => score f
  | .tuple elems => ptermScoreList elems
  | .select s => score s.body

def ptermScoreList : List PTerm → Nat
  | [] => 0
  | e :: es => max (ptermScore e) (ptermScoreList es)

end

/-! ### C4: substitution is capture-avoiding via shadowing -/

/-- C4, confirmed: substituting the bound variable of an `ExistsFormula`
returns the formula unchanged, and substituting a variable bound by a
`Select` returns the select unchanged, for every replacement. -/
theorem C4_substitute_shadowing (n : Nat) (x : String) (b : Formula) (r : Formula)
    (args : List String) (body : Formula) :
    substF n (.existsF x b) x r = .ok (.existsF x b) ∧
    (x ∈ args → substSelect n ⟨args, body⟩ x r = .ok ⟨args, body⟩) := by
  constructor
  · rw [substF]
    simp
  · intro hx
    simp [substSelect, hx]

/-- Witness for `C4_substitute_shadowing`: the select hypothesis discharged
at a concrete input. -/
theorem C4_substitute_shadowing_witness :
    substF 1 (.existsF ("x") (.var ("x"))) ("x") true_formula
        = .ok (.existsF ("x") (.var ("x"))) ∧
    substSelect 1 ⟨["x"], .var ("x")⟩ ("x") true_formula = .ok ⟨["x"], .var ("x")⟩ :=
  ⟨(C4_substitute_shadowing 1 ("x") (.var ("x")) true_formula ["x"] (.var ("x"))).1,
    (C4_substitute_shadowing 1 ("x") (.var ("x")) true_formula ["x"] (.var ("x"))).2
      (List.mem_singleton.mpr rfl)⟩

instance {epsilon alpha : Type} [DecidableEq epsilon] [DecidableEq alpha] :
    DecidableEq (Except epsilon alpha) := fun x y =>
  match x, y with
  | .ok a, .ok b =>
    if h : a = b then .isTrue (by rw [h])
    else .isFalse (by intro hc; cases hc; exact h rfl)
  | .ok _, .error _ => .isFalse (by intro hc; cases hc)
  | .error _, .ok _ => .isFalse (by intro hc; cases hc)
  | .error e, .error f =>
    if h : e = f then .isTrue (by rw [h])
    else .isFalse (by intro hc; cases hc; exact h rfl)

/-! ### C7: the score of compound formulas -/

theorem scoreList_attained : ∀ (args : List Formula), args ≠ [] →
    ∃ f ∈ args, scoreList args = score f := by
  intro args
  induction args with
  | nil => intro h; exact absurd rfl h
  | cons a as ih =>
    intro _
    by_cases h : as = []
    · subst h
      exact ⟨a, List.mem_singleton.mpr rfl, by simp [scoreList]⟩
    · obtain ⟨f, hf, hsc⟩ := ih h
      by_cases hle : score a ≤ scoreList as
      · refine ⟨f, List.mem_cons_of_mem a hf, ?_⟩
        rw [scoreList, hsc.symm, Nat.max_eq_right hle]
      · refine ⟨a, List.mem_cons_self a as, ?_⟩
        rw [scoreList, Nat.max_eq_left (by omega)]

theorem scoreList_le : ∀ (args : List Formula), ∀ g ∈ args, score g ≤ scoreList args := by
  intro args
  induction args with
  | nil => intro g hg; cases hg
  | cons a as ih =>
    intro g hg
    rcases List.mem_cons.mp hg with h | h
    · subst h; simp [scoreList]
    · have := ih g h
      simp only [scoreList]
      omega

theorem ptermScoreList_attained : ∀ (es : List PTerm), es ≠ [] →
    ∃ e ∈ es, ptermScoreList es = ptermScore e := by
  intro es
  induction es with
  | nil => intro h; exact absurd rfl h
  | cons a as ih =>
    intro _
    by_cases h : as = []
    · subst h
      exact ⟨a, List.mem_singleton.mpr rfl, by simp [ptermScoreList]⟩
    · obtain ⟨f, hf, hsc⟩ := ih h
      by_cases hle : ptermScore a ≤ ptermScoreList as
      · refine ⟨f, List.mem_cons_of_mem a hf, ?_⟩
        rw [ptermScoreList, hsc.symm, Nat.max_eq_right hle]
      · refine ⟨a, List.mem_cons_self a as, ?_⟩
        rw [ptermScoreList, Nat.max_eq_left (by omega)]

theorem ptermScoreList_le : ∀ (es : List PTerm), ∀ e ∈ es, ptermScore e ≤ ptermScoreList es := by
  intro es
  induction es with
  | nil => intro e he; cases he
  | cons a as ih =>
    intro e he
    rcases List.mem_cons.mp he with h | h
    · subst h; simp [ptermScoreList]
    · have := ih e h
      simp only [ptermScoreList]
      omega

/-- A Wikidata item (`_WikidataItem`, a `NamedIndividual` with default types
`(owl:Thing, owl:NamedIndividual)`) with a given `sameAs`-count score. -/
def wdItem (iri : String) (sc : Nat) : Formula :=
  .val (.entity iri [CClass.owl_Thing, CClass.owl_NamedIndividual] sc none) none

/-- C7, counterexample: a `_WikidataItem` with score 5 is accepted as a triple
predicate (its type `owl:Thing | owl:NamedIndividual` has non-bottom
intersection with `rdf:Property`), yet `TripleFormula.score` is
`max(subject.score, object.score)` and ignores it: the score of the triple is
0, not the maximum 5 of its children. -/
theorem C7_counterexample :
    mkTriple (wdItem ("http://www.wikidata.org/entity/Q2") 0)
        (wdItem ("http://www.wikidata.org/entity/Q5") 5)
        (wdItem ("http://www.wikidata.org/entity/Q2") 0)
      = .ok (.triple (wdItem ("http://www.wikidata.org/entity/Q2") 0)
          (wdItem ("http://www.wikidata.org/entity/Q5") 5)
          (wdItem ("http://www.wikidata.org/entity/Q2") 0)) ∧
    score (.triple (wdItem ("http://www.wikidata.org/entity/Q2") 0)
        (wdItem ("http://www.wikidata.org/entity/Q5") 5)
        (wdItem ("http://www.wikidata.org/entity/Q2") 0)) = 0 ∧
    score (wdItem ("http://www.wikidata.org/entity/Q5") 5) = 5 := by
  refine ⟨by decide, by decide, by decide⟩

/-- C7, amended: the score of every compound formula is the maximum of its
children's scores, except `TripleFormula`, whose score is
`max(subject.score, object.score)` with the predicate ignored; a variable
scores 0 and a value wrapping an entity scores the entity's external score. -/
theorem C7_score_amended :
    (∀ name, score (.var name) = 0) ∧
    (∀ iri types sc pd orig, score (.val (.entity iri types sc pd) orig) = sc) ∧
    (∀ op l r, score (.arith op l r) = max (score l) (score r)) ∧
    (∀ args, args ≠ [] →
      (∃ f ∈ args, score (.and args) = score f) ∧
        ∀ g ∈ args, score g ≤ score (.and args)) ∧
    (∀ args, args ≠ [] →
      (∃ f ∈ args, score (.or args) = score f) ∧
        ∀ g ∈ args, score g ≤ score (.or args)) ∧
    (∀ a, score (.not a) = score a) ∧
    (∀ l r, score (.eq l r) = max (score l) (score r)) ∧
    (∀ op l r, score (.ord op l r) = max (score l) (score r)) ∧
    (∀ x b, score (.existsF x b) = score b) ∧
    (∀ sj p o, score (.triple sj p o) = max (score sj) (score o)) ∧
    (∀ es, es ≠ [] →
      (∃ e ∈ es, ptermScore (.tuple es) = ptermScore e) ∧
        ∀ e ∈ es, ptermScore e ≤ ptermScore (.tuple es)) ∧
    (∀ sel, ptermScore (.select sel) = score sel.body) := by
  refine ⟨fun name => rfl, fun iri types sc pd orig => rfl, fun op l r => rfl,
    ?_, ?_, fun a => rfl, fun l r => rfl, fun op l r => rfl, fun x b => rfl,
    fun sj p o => rfl, ?_, fun sel => rfl⟩
  · intro args h
    exact ⟨scoreList_attained args h, scoreList_le args⟩
  · intro args h
    exact ⟨scoreList_attained args h, scoreList_le args⟩
  · intro es h
    exact ⟨ptermScoreList_attained es h, ptermScoreList_le es⟩

/-- Witness for `C7_score_amended` with the nonemptiness hypotheses
discharged at concrete argument lists. -/
theorem C7_score_amended_witness :
    (∃ f ∈ [true_formula, false_formula], score (.and [true_formula, false_formula]) = score f) ∧
    score (.not true_formula) = score true_formula :=
  ⟨((C7_score_amended.2.2.2.1 [true_formula, false_formula]) (by decide)).1,
    C7_score_amended.2.2.2.2.2.1 true_formula⟩

/-! ### C8: arithmetic constructors and their errors -/

def one_formula : Formula := .val (.lit ⟨"1", CDatatype.xsd_integer⟩) none

/-- C8, counterexample: on a boolean left operand the constructor raises
`ValueError`, not `TypeError` as the claim states. -/
theorem C8_counterexample :
    mkArith .add true_formula one_formula
        = .error (.valueError ("Arithmetic operators expects numeric left operand")) ∧
    ∀ m, mkArith .add true_formula one_formula ≠ .error (.typeError m) := by
  have h1 : mkArith .add true_formula one_formula
      = .error (.valueError ("Arithmetic operators expects numeric left operand")) := by
    decide
  refine ⟨h1, ?_⟩
  intro m h
  rw [h1] at h
  simp at h

/-- C8, amended: each of `Add/Sub/Mul/Div` raises `ValueError` (not
`TypeError`) exactly when an operand's type has bottom intersection with the
numeric type, and otherwise returns the formula without raising. -/
theorem C8_arith_errors (op : AOp) (l r : Formula) :
    ((tyInter (typeOf l) numeric_type = tyBottom ∨
        tyInter (typeOf r) numeric_type = tyBottom) →
      ∃ m, mkArith op l r = .error (.valueError m)) ∧
    ((tyInter (typeOf l) numeric_type ≠ tyBottom ∧
        tyInter (typeOf r) numeric_type ≠ tyBottom) →
      mkArith op l r = .ok (.arith op l r)) := by
  constructor
  · intro h
    rw [mkArith]
    by_cases hl : tyInter (typeOf l) numeric_type = tyBottom
    · rw [if_pos hl]
      exact ⟨_, rfl⟩
    · rw [if_neg hl]
      rcases h with h | h
      · exact absurd h hl
      · rw [if_pos h]
        exact ⟨_, rfl⟩
  · intro ⟨hl, hr⟩
    rw [mkArith, if_neg hl, if_neg hr]

/-- Witness for `C8_arith_errors`, discharging both hypotheses at concrete
operands. -/
theorem C8_arith_errors_witness :
    (∃ m, mkArith .add true_formula one_formula = .error (.valueError m)) ∧
    mkArith .mul one_formula one_formula = .ok (.arith .mul one_formula one_formula) :=
  ⟨(C8_arith_errors .add true_formula one_formula).1 (Or.inl (by decide)),
    (C8_arith_errors .mul one_formula one_formula).2 ⟨by decide, by decide⟩⟩

/-! ### C10: `Select.bind` ignores its key -/

/-- C10, confirmed: `bind(key, value)` never reads `key`: it equals
`bind(0, value)`, substitutes the first positional argument in the body, and
returns a formula when there was exactly one argument, else a `Select` over
the remaining arguments; `__call__` is `bind(0, value)`. -/
theorem C10_bind_first_arg (n : Nat) (s : SelectT) (k : Int) (v : Formula) :
    bindSelect n s k v = bindSelect n s 0 v ∧
    (∀ a rest, s.args = a :: rest →
      (rest = [] → bindSelect n s k v = (substF n s.body a v).map Sum.inl) ∧
      (rest ≠ [] → bindSelect n s k v
        = (substF n s.body a v).map (fun b => Sum.inr ⟨rest, b⟩))) ∧
    callSelect n s v = bindSelect n s k v := by
  refine ⟨rfl, ?_, rfl⟩
  intro a rest hargs
  constructor
  · intro hrest
    subst hrest
    rw [bindSelect, hargs]
    simp
  · intro hrest
    rw [bindSelect, hargs]
    simp [List.isEmpty_iff, hrest]

/-- Witness for `C10_bind_first_arg` at a two-argument select. -/
theorem C10_bind_first_arg_witness :
    bindSelect 1 ⟨["x", "y"], .var ("x")⟩ 7 true_formula
      = (substF 1 (.var ("x")) ("x") true_formula).map
          (fun b => Sum.inr ⟨["y"], b⟩) :=
  ((C10_bind_first_arg 1 ⟨["x", "y"], .var ("x")⟩ 7 true_formula).2.1
    ("x") ["y"] rfl).2 (by decide)


/-! ### C3: equality elimination in `ExistsFormula.__new__` -/

theorem ebind_ok {alpha beta : Type} (a : alpha) (f : alpha → Except PyErr beta) :
    (Except.ok a >>= f) = f a := rfl

theorem rtermEq_refl (t : RTerm) : rtermEq t t = true := by
  cases t <;> simp [rtermEq]

theorem substF_var_self (n : Nat) (x : String) (r : Formula) :
    substF n (.var x) x r = .ok r := by
  simp [substF]

theorem substF_val (n : Nat) (t : RTerm) (o : Option String) (x : String) (r : Formula) :
    substF n (.val t o) x r = .ok (.val t o) := by
  simp [substF]

/-- The `TripleFormula.__init__` checks only look at the subject and the
predicate, so a triple construction that succeeded keeps succeeding when only
the object changes. -/
theorem mkTriple_ok_object (s p o o2 : Formula) (f : Formula)
    (h : mkTriple s p o = .ok f) :
    mkTriple s p o2 = .ok (.triple s p o2) := by
  rw [mkTriple] at h ⊢
  by_cases h1 : tyLE (typeOf s) literal_type = true
  · rw [if_pos h1] at h; cases h
  · rw [if_neg h1] at h ⊢
    by_cases h2 : tyInter (typeOf p) property_type = tyBottom
    · rw [if_pos h2] at h; cases h
    · rw [if_neg h2]

theorem mkEqF_val_self (k : Nat) (v : RTerm) (o : Option String) :
    mkEqF k (.val v o) (.val v o) = true_formula := by
  simp [mkEqF, feqF, rtermEq_refl]

theorem mkAndFuel_triple_true (k : Nat) (t : Formula) (sj p ob : Formula)
    (ht : t = .triple sj p ob) :
    mkAndFuel (k + 1) [t, true_formula] = t := by
  subst ht
  simp [mkAndFuel, collectClauses, collectClausesAux, isTrueVal, isFalseVal,
    rtermEq, trueLit, falseLit, true_formula]

/-- The computation at the heart of the existential-elimination rule: over a
body `Triple(a, p, x) ∧ (x = v)` (either orientation of the equality), the
`Exists` constructor substitutes `v` for `x` in the whole conjunction, the
equality folds to `true` and drops out, and the substituted triple remains. -/
theorem mkExistsF_and_triple_eq (m : Nat) (x : String) (a p a2 p2 : Formula)
    (v : RTerm) (o : Option String)
    (ha : substF (m + 1) a x (.val v o) = .ok a2)
    (hp : substF (m + 1) p x (.val v o) = .ok p2)
    (hT : mkTriple a2 p2 (.val v o) = .ok (.triple a2 p2 (.val v o))) :
    mkExistsF (m + 1) x (.and [.triple a p (.var x), .eq (.var x) (.val v o)])
      = .ok (.triple a2 p2 (.val v o)) ∧
    mkExistsF (m + 1) x (.and [.triple a p (.var x), .eq (.val v o) (.var x)])
      = .ok (.triple a2 p2 (.val v o)) := by
  have htr : substF (m + 1) (.triple a p (.var x)) x (.val v o)
      = .ok (.triple a2 p2 (.val v o)) := by
    simp [substF, ebind_ok, ha, hp, hT]
  have heqL : substF (m + 1) (.eq (.var x) (.val v o)) x (.val v o)
      = .ok true_formula := by
    simp [substF, ebind_ok, mkEqF_val_self]
  have heqR : substF (m + 1) (.eq (.val v o) (.var x)) x (.val v o)
      = .ok true_formula := by
    simp [substF, ebind_ok, mkEqF_val_self]
  have hlistL : substList (m + 1) [Formula.triple a p (.var x), .eq (.var x) (.val v o)]
      x (.val v o) = .ok [.triple a2 p2 (.val v o), true_formula] := by
    simp [substList, ebind_ok, htr, heqL]
  have hlistR : substList (m + 1) [Formula.triple a p (.var x), .eq (.val v o) (.var x)]
      x (.val v o) = .ok [.triple a2 p2 (.val v o), true_formula] := by
    simp [substList, ebind_ok, htr, heqR]
  have hAnd : mkAnd [Formula.triple a2 p2 (.val v o), true_formula]
      = .triple a2 p2 (.val v o) :=
    mkAndFuel_triple_true _ _ a2 p2 (.val v o) rfl
  have hsubL : substF (m + 1) (.and [Formula.triple a p (.var x), .eq (.var x) (.val v o)])
      x (.val v o) = .ok (.triple a2 p2 (.val v o)) := by
    simp [substF, ebind_ok, hlistL, hAnd]
  have hsubR : substF (m + 1) (.and [Formula.triple a p (.var x), .eq (.val v o) (.var x)])
      x (.val v o) = .ok (.triple a2 p2 (.val v o)) := by
    simp [substF, ebind_ok, hlistR, hAnd]
  constructor
  · simp [mkExistsF, isTrueVal, isFalseVal, rtermEq, trueLit, falseLit,
      findEqChild, isVarNamed, hsubL]
  · simp [mkExistsF, isTrueVal, isFalseVal, rtermEq, trueLit, falseLit,
      findEqChild, isVarNamed, hsubR]

/-- An object-property value, as resolved from Wikidata. -/
def wdProp (iri : String) : Formula :=
  .val (.entity iri [CClass.owl_ObjectProperty] 0 none) none

def q5Term : RTerm :=
  .entity ("http://www.wikidata.org/entity/Q5")
    [CClass.owl_Thing, CClass.owl_NamedIndividual] 0 none

def q5F : Formula := .val q5Term none

def p1F : Formula := wdProp ("http://www.wikidata.org/prop/direct/P1")

/-- C3, counterexample: the claim quantifies over every well-typed triple
`Triple(a, p, x)`, including those where `x` occurs free in the subject.
With `a := x`, the triple `Triple(x, p, x)` is well-typed, but
`Exists(x, Triple(x, p, x) ∧ (x = v))` constructs `Triple(v, p, v)`, which
is not the claimed `Triple(a, p, v) = Triple(x, p, v)`, under structural
equality and under the Python `==` of formulas alike. -/
theorem C3_counterexample :
    mkTriple (.var ("x")) p1F (.var ("x"))
      = .ok (.triple (.var ("x")) p1F (.var ("x"))) ∧
    mkExistsF 1 ("x") (.and [.triple (.var ("x")) p1F (.var ("x")),
        .eq (.var ("x")) (.val q5Term none)])
      = .ok (.triple q5F p1F q5F) ∧
    Formula.triple q5F p1F q5F ≠ .triple (.var ("x")) p1F q5F ∧
    feqF 1 (.triple q5F p1F q5F) (.triple (.var ("x")) p1F q5F) = false := by
  refine ⟨by decide, ?_, by simp [q5F], ?_⟩
  · exact (mkExistsF_and_triple_eq 0 ("x") (.var ("x")) p1F q5F p1F q5Term none
      (substF_var_self 1 ("x") (.val q5Term none))
      (substF_val 1 _ none ("x") _) (by decide)).1
  · simp [feqF, q5F, p1F, wdProp]

/-- C3, amended: when the bound variable `x` does not occur free in the
subject `a` nor in the predicate `p` (expressed as substitution leaving them
unchanged), constructing `Exists(x, Triple(a, p, x) ∧ (x = v))` yields
exactly `Triple(a, p, v)`, for either orientation of the equality. -/
theorem C3_exists_elimination (m : Nat) (x : String) (a p : Formula)
    (v : RTerm) (o : Option String)
    (hT : mkTriple a p (.var x) = .ok (.triple a p (.var x)))
    (ha : substF (m + 1) a x (.val v o) = .ok a)
    (hp : substF (m + 1) p x (.val v o) = .ok p) :
    mkExistsF (m + 1) x (.and [.triple a p (.var x), .eq (.var x) (.val v o)])
      = .ok (.triple a p (.val v o)) ∧
    mkExistsF (m + 1) x (.and [.triple a p (.var x), .eq (.val v o) (.var x)])
      = .ok (.triple a p (.val v o)) :=
  mkExistsF_and_triple_eq m x a p a p v o ha hp
    (mkTriple_ok_object a p (.var x) (.val v o) _ hT)

/-- Witness for `C3_exists_elimination` at a concrete subject, predicate and
value. -/
theorem C3_exists_elimination_witness :
    mkExistsF 1 ("x")
        (.and [.triple (wdItem ("http://www.wikidata.org/entity/Q2") 0) p1F (.var ("x")),
          .eq (.var ("x")) (.val q5Term none)])
      = .ok (.triple (wdItem ("http://www.wikidata.org/entity/Q2") 0) p1F
          (.val q5Term none)) :=
  (C3_exists_elimination 0 ("x") (wdItem ("http://www.wikidata.org/entity/Q2") 0) p1F
    q5Term none (by decide) (substF_val 1 _ none ("x") _)
    (substF_val 1 _ none ("x") _)).1


/-! ### C5: unrelated datatype intersections are removed, not collapsed -/

/-- The `keepMax` assumptions for the element-level datatype filter used by
`_simplify_datatype_intersection` (minimal elements of the restriction
order). -/
theorem keepMaxAssumptionsDInner :
    KeepMaxAssumptions (fun a b => is_restriction_of b a) (fun _ => False)
      (fun _ => True) := by
  constructor
  · intro a _
    exact restriction_refl a
  · intro a b c _ _ _ h1 h2
    exact restriction_trans c b a h2 h1
  · intro a b _ _ h1 h2
    exact restriction_antisymm a b h2 h1
  · intro a b _ _ _ h
    exact h

/-- C5, amended: an intersection containing two distinct datatypes with no
restriction relation between them simplifies to `None` — the member is
removed from the union entirely, it does not collapse to `rdfs:Literal`. -/
theorem C5_unrelated_removed (X : Finset CDatatype) (a b : CDatatype)
    (ha : a ∈ X) (hb : b ∈ X) (hne : a ≠ b)
    (hab : is_restriction_of a b = false) (hba : is_restriction_of b a = false) :
    simplify_datatype_intersection X = none ∧ datatype_present {X} = ∅ := by
  have hgood : ∀ x ∈ X, (fun _ : CDatatype => True) x := fun x _ => trivial
  obtain ⟨ma, hma, hRa⟩ :=
    dominator_in_keepMax (fun a b => is_restriction_of b a) (fun _ => False)
      (fun _ => True) keepMaxAssumptionsDInner hgood ha (by simp)
  obtain ⟨mb, hmb, hRb⟩ :=
    dominator_in_keepMax (fun a b => is_restriction_of b a) (fun _ => False)
      (fun _ => True) keepMaxAssumptionsDInner hgood hb (by simp)
  have hmane : ma ≠ mb := by
    intro h
    subst h
    rcases restriction_cone_chain ma a b hRa hRb with h | h
    · rw [h] at hab; cases hab
    · rw [h] at hba; cases hba
  have hcard : 1 < (keepMax (fun a b => is_restriction_of b a)
      (fun _ => False) X).card :=
    Finset.one_lt_card.mpr ⟨ma, hma, mb, hmb, hmane⟩
  have hnone : simplify_datatype_intersection X = none := by
    rw [simplify_datatype_intersection]
    rw [if_neg (by omega), if_neg (by omega)]
  refine ⟨hnone, ?_⟩
  rw [datatype_present, Finset.singleton_biUnion, hnone]
  rfl

/-- Witness for `C5_unrelated_removed` at `xsd:string ∩ xsd:boolean`. -/
theorem C5_unrelated_removed_witness :
    simplify_datatype_intersection
        ({CDatatype.xsd_string, CDatatype.xsd_boolean} : Finset CDatatype) = none ∧
    datatype_present
        ({({CDatatype.xsd_string, CDatatype.xsd_boolean} : Finset CDatatype)} :
          Finset (Finset CDatatype)) = ∅ :=
  C5_unrelated_removed ({CDatatype.xsd_string, CDatatype.xsd_boolean} : Finset CDatatype)
    CDatatype.xsd_string CDatatype.xsd_boolean (by decide) (by decide) (by decide)
    (by decide) (by decide)

/-- C5, counterexample to the claimed collapse: the simplified intersection of
the unrelated `xsd:string` and `xsd:boolean` is `None`, not
`frozenset({rdfs:Literal})`; in the union it is removed, so the resulting
type is bottom, not the literal type. -/
theorem C5_counterexample :
    simplify_datatype_intersection
        ({CDatatype.xsd_string, CDatatype.xsd_boolean} : Finset CDatatype)
      ≠ some setLiteral ∧
    simplify_datatype
        ({({CDatatype.xsd_string, CDatatype.xsd_boolean} : Finset CDatatype)} :
          Finset (Finset CDatatype)) = ∅ ∧
    tyInter (tyFromDatatype CDatatype.xsd_string) (tyFromDatatype CDatatype.xsd_boolean)
      = tyBottom ∧
    tyInter (tyFromDatatype CDatatype.xsd_string) (tyFromDatatype CDatatype.xsd_boolean)
      ≠ tyFromDatatype CDatatype.rdfs_Literal := by
  refine ⟨by decide, by decide, by decide, by decide⟩


/-! ### C9: fuzzy relation matching and the short-label guard -/

/-- Whitespace for `str.strip()`. -/
def isWS (c : Char) : Bool := c == ' ' || c == '\t' || c == '\n' || c == '\r'

/-- `str.lower()` on an ASCII character. -/
def pyLower (c : Char) : Char :=
  if ('A' : Char) ≤ c && c ≤ ('Z' : Char) then Char.ofNat (c.toNat + 32) else c

/-- `label.strip().lower()`. -/
def normalizeLabel (s : String) : String :=
  ⟨(((s.data.dropWhile isWS).reverse.dropWhile isWS).reverse).map pyLower⟩

/-- Levenshtein edit distance (unit costs), fuelled so that it computes by
kernel reduction; the wrapper supplies fuel covering the total length. -/
def levAux : Nat → List Char → List Char → Nat
  | _, [], ys => ys.length
  | _, x :: xs, [] => (x :: xs).length
  | 0, _, _ => 0
  | f + 1, x :: xs, y :: ys =>
    if x = y then levAux f xs ys
    else 1 + min (levAux f xs ys) (min (levAux f (x :: xs) ys) (levAux f xs (y :: ys)))

def lev (a b : String) : Nat := levAux (a.length + b.length) a.data b.data

/-- `WikidataKnowledgeBase._relations_by_edit_distance`: the set of properties
of every reference label at exactly the given edit distance from some input
label. -/
def relationsByEditDistance (refMap : List (String × Finset String))
    (ls : List String) (d : Nat) : Finset String :=
  match refMap with
  | [] => ∅
  | (rl, props) :: rest =>
    if ls.any (fun l => lev l rl == d) then
      props ∪ relationsByEditDistance rest ls d
    else relationsByEditDistance rest ls d

/-- `WikidataKnowledgeBase.relations_from_labels`: normalise the labels, then
try distances 0, 1, 2 in turn, keeping at each distance only the labels with
`len(l) >= 3 * distance + 1`, and return the first non-empty result. -/
def relations_from_labels (refMap : List (String × Finset String))
    (labels0 : List String) : Finset String :=
  let labels := labels0.map (fun l => normalizeLabel l)
  let try0 := relationsByEditDistance refMap
    (labels.filter (fun l => decide (3 * 0 + 1 ≤ l.length))) 0
  if try0.Nonempty then try0 else
    let try1 := relationsByEditDistance refMap
      (labels.filter (fun l => decide (3 * 1 + 1 ≤ l.length))) 1
    if try1.Nonempty then try1 else
      let try2 := relationsByEditDistance refMap
        (labels.filter (fun l => decide (3 * 2 + 1 ≤ l.length))) 2
      if try2.Nonempty then try2 else ∅

theorem relationsByEditDistance_nil_labels (refMap : List (String × Finset String))
    (d : Nat) : relationsByEditDistance refMap [] d = ∅ := by
  induction refMap with
  | nil => rfl
  | cons p rest ih =>
    rw [relationsByEditDistance]
    simp [ih]

theorem subset_relationsByEditDistance (refMap : List (String × Finset String))
    (ls : List String) (d : Nat) (rl : String) (props : Finset String)
    (hmem : (rl, props) ∈ refMap) (hl : ∃ l ∈ ls, lev l rl = d) :
    props ⊆ relationsByEditDistance refMap ls d := by
  induction refMap with
  | nil => cases hmem
  | cons p rest ih =>
    rw [relationsByEditDistance]
    rcases List.mem_cons.mp hmem with h | h
    · subst h
      have hc : ls.any (fun l => lev l rl == d) = true := by
        obtain ⟨l, hlmem, hld⟩ := hl
        exact List.any_eq_true.mpr ⟨l, hlmem, by simp [hld]⟩
      rw [if_pos hc]
      exact Finset.subset_union_left
    · by_cases hc : ls.any (fun l => lev l p.1 == d) = true
      · rw [if_pos hc]
        exact (ih h).trans Finset.subset_union_right
      · rw [if_neg hc]
        exact ih h

/-- C9, confirmed: a 2-character label is excluded from every fuzzy round, so
only its exact (distance-0) matches are ever returned; a 6-character label
participates in the distance-1 round, so when no exact match exists the
result is exactly the distance-1 match set, which contains the properties of
every reference label at edit distance 1. -/
theorem C9_fuzzy_distance_guard :
    (∀ (refMap : List (String × Finset String)) (l : String),
      (normalizeLabel l).length = 2 →
      relations_from_labels refMap [l]
        = relationsByEditDistance refMap [normalizeLabel l] 0) ∧
    (∀ (refMap : List (String × Finset String)) (l : String),
      (normalizeLabel l).length = 6 →
      relationsByEditDistance refMap [normalizeLabel l] 0 = ∅ →
      relations_from_labels refMap [l]
        = relationsByEditDistance refMap [normalizeLabel l] 1 ∧
      ∀ (rl : String) (props : Finset String), (rl, props) ∈ refMap →
        lev (normalizeLabel l) rl = 1 → props ⊆ relations_from_labels refMap [l]) := by
  constructor
  · intro refMap l hlen
    rw [relations_from_labels]
    have h0 : List.filter (fun l2 => decide (3 * 0 + 1 ≤ l2.length))
        (List.map (fun l2 => normalizeLabel l2) [l]) = [normalizeLabel l] := by
      simp [List.filter, hlen]
    have h1 : List.filter (fun l2 => decide (3 * 1 + 1 ≤ l2.length))
        (List.map (fun l2 => normalizeLabel l2) [l]) = [] := by
      simp [List.filter, hlen]
    have h2 : List.filter (fun l2 => decide (3 * 2 + 1 ≤ l2.length))
        (List.map (fun l2 => normalizeLabel l2) [l]) = [] := by
      simp [List.filter, hlen]
    rw [h0, h1, h2]
    by_cases hne : (relationsByEditDistance refMap [normalizeLabel l] 0).Nonempty
    · rw [if_pos hne]
    · rw [if_neg hne, relationsByEditDistance_nil_labels, relationsByEditDistance_nil_labels]
      simp [Finset.not_nonempty_iff_eq_empty.mp hne]
  · intro refMap l hlen h0empty
    have hres : relations_from_labels refMap [l]
        = relationsByEditDistance refMap [normalizeLabel l] 1 := by
      rw [relations_from_labels]
      have h0 : List.filter (fun l2 => decide (3 * 0 + 1 ≤ l2.length))
          (List.map (fun l2 => normalizeLabel l2) [l]) = [normalizeLabel l] := by
        simp [List.filter, hlen]
      have h1 : List.filter (fun l2 => decide (3 * 1 + 1 ≤ l2.length))
          (List.map (fun l2 => normalizeLabel l2) [l]) = [normalizeLabel l] := by
        simp [List.filter, hlen]
      have h2 : List.filter (fun l2 => decide (3 * 2 + 1 ≤ l2.length))
          (List.map (fun l2 => normalizeLabel l2) [l]) = [] := by
        simp [List.filter, hlen]
      rw [h0, h1, h2, h0empty]
      rw [if_neg (by simp)]
      by_cases hne : (relationsByEditDistance refMap [normalizeLabel l] 1).Nonempty
      · rw [if_pos hne]
      · rw [if_neg hne, relationsByEditDistance_nil_labels]
        simp [Finset.not_nonempty_iff_eq_empty.mp hne]
    refine ⟨hres, ?_⟩
    intro rl props hmem hdist
    rw [hres]
    exact subset_relationsByEditDistance refMap [normalizeLabel l] 1 rl props hmem
      ⟨normalizeLabel l, List.mem_singleton.mpr rfl, hdist⟩

/-- Witness for `C9_fuzzy_distance_guard` on a concrete relation table. -/
theorem C9_fuzzy_distance_guard_witness :
    relations_from_labels [(("abc"), ({("P1")} : Finset String))] [("ab")]
      = relationsByEditDistance [(("abc"), ({("P1")} : Finset String))]
          [normalizeLabel ("ab")] 0 ∧
    ({("P19")} : Finset String)
      ⊆ relations_from_labels [(("browns"), ({("P19")} : Finset String))] [("browny")] := by
  constructor
  · exact C9_fuzzy_distance_guard.1 [(("abc"), ({("P1")} : Finset String))] ("ab")
      (by decide)
  · exact (C9_fuzzy_distance_guard.2 [(("browns"), ({("P19")} : Finset String))]
      ("browny") (by decide) (by decide)).2 ("browns") ({("P19")} : Finset String)
      (List.mem_singleton.mpr rfl) (by decide)


/-! ### C2: the SPARQL query builder (`wikidata.py`) -/

/-- Lexicographic order on strings as character lists (`sorted` on `str`). -/
def listLt : List Char → List Char → Bool
  | [], [] => false
  | [], _ :: _ => true
  | _ :: _, [] => false
  | a :: as, b :: bs => if a < b then true else if b < a then false else listLt as bs

def insertSorted (x : String) : List String → List String
  | [] => [x]
  | y :: ys => if listLt x.data y.data then x :: y :: ys else y :: insertSorted x ys

/-- Python `sorted` on a list of strings (strings compare by a total order, so
any sort produces the same list). -/
def sortStrings (l : List String) : List String := l.foldr insertSorted []

/-- Python `sep.join(parts)`. -/
def joinSep (sep : String) : List String → String
  | [] => ""
  | [x] => x
  | x :: xs => x ++ sep ++ joinSep sep xs

/-- `str.replace(pat, rep)` over character lists, fuelled by the source
length. -/
def replaceList : Nat → List Char → List Char → List Char → List Char
  | 0, src, _, _ => src
  | _, [], _, _ => []
  | f + 1, c :: rest, pat, rep =>
    if pat.isPrefixOf (c :: rest) then rep ++ replaceList f ((c :: rest).drop pat.length) pat rep
    else c :: replaceList f rest pat rep

def pyReplace (src pat rep : String) : String :=
  ⟨replaceList (src.data.length + 1) src.data pat.data rep.data⟩

/-- `_wikidata_prefix_map`, in insertion order. -/
def wikidata_prefix_map : List (String × String) :=
  [(("rdf"), ("http://www.w3.org/1999/02/22-rdf-syntax-ns#")),
   (("xsd"), ("http://www.w3.org/2001/XMLSchema#")),
   (("rdfs"), ("http://www.w3.org/2000/01/rdf-schema#")),
   (("owl"), ("http://www.w3.org/2002/07/owl#")),
   (("skos"), ("http://www.w3.org/2004/02/skos/core#")),
   (("schema"), ("http://schema.org/")),
   (("cc"), ("http://creativecommons.org/ns#")),
   (("geo"), ("http://www.opengis.net/ont/geosparql#")),
   (("prov"), ("http://www.w3.org/ns/prov#")),
   (("wikibase"), ("http://wikiba.se/ontology#")),
   (("wd"), ("http://www.wikidata.org/entity/")),
   (("wdt"), ("http://www.wikidata.org/prop/direct/"))]

/-- The IRI of each datatype (`owl.py`). -/
def dtIri : CDatatype → String
  | .rdfs_Literal => "http://www.w3.org/2000/01/rdf-schema#Literal"
  | .rdf_langString => "http://www.w3.org/1999/02/22-rdf-syntax-ns#langString"
  | .platypus_calendar => "http://askplatyp.us/vocab#calendar"
  | .platypus_numeric => "http://askplatyp.us/vocab#numeric"
  | .xsd_anyURI => "http://www.w3.org/2001/XMLSchema#anyURI"
  | .xsd_boolean => "http://www.w3.org/2001/XMLSchema#boolean"
  | .xsd_dateTime => "http://www.w3.org/2001/XMLSchema#dateTime"
  | .xsd_date => "http://www.w3.org/2001/XMLSchema#date"
  | .xsd_decimal => "http://www.w3.org/2001/XMLSchema#decimal"
  | .xsd_double => "http://www.w3.org/2001/XMLSchema#double"
  | .xsd_duration => "http://www.w3.org/2001/XMLSchema#duration"
  | .xsd_float => "http://www.w3.org/2001/XMLSchema#float"
  | .xsd_gYearMonth => "http://www.w3.org/2001/XMLSchema#gYearMonth"
  | .xsd_gYear => "http://www.w3.org/2001/XMLSchema#gYear"
  | .xsd_integer => "http://www.w3.org/2001/XMLSchema#integer"
  | .xsd_string => "http://www.w3.org/2001/XMLSchema#string"
  | .xsd_time => "http://www.w3.org/2001/XMLSchema#time"
  | .geo_wktLiteral => "http://www.opengis.net/ont/geosparql#wktLiteral"

/-- Python `str(term)` on an RDF term: `Entity.__str__` is `<iri>`; the base
`Literal.__str__` is `json.dumps(lexical_form)^^datatype` (the bare-lexical
overrides of some numeric and date subclasses are not distinguished here, and
`json.dumps` is modelled as plain quoting). -/
def strRTerm : RTerm → String
  | .entity iri _ _ _ => "<" ++ iri ++ ">"
  | .lit l => "\"" ++ l.lexical ++ "\"^^<" ++ dtIri l.dt ++ ">"

/-- `_WikidataQuerySparqlBuilder._serialize_rdf_term`: abbreviate the first
matching prefix of the ordered prefix map, else `str(term)`. -/
def serialize_rdf_term (t : RTerm) : String :=
  match t with
  | .entity iri _ _ _ =>
    match wikidata_prefix_map.find? (fun pr => pr.2.data.isPrefixOf iri.data) with
    | some pr => pyReplace iri pr.2 (pr.1 ++ ":")
    | none => strRTerm t
  | .lit _ => strRTerm t

def aopStrSym : AOp → String
  | .add => " + "
  | .sub => " - "
  | .mul => " * "
  | .div => " / "

def oopStrSym : OOp → String
  | .gt => " > "
  | .ge => " ≥ "
  | .lt => " < "
  | .le => " ≤ "

def oopExprSym : OOp → String
  | .gt => " > "
  | .ge => " >= "
  | .lt => " < "
  | .le => " <= "

mutual

/-- Python `str` on formulas (`__str__` per class).  `And`/`Or` print their
`frozenset` in an unspecified order; the model prints insertion order. -/
def strFormula : Formula → String
  | .var n => "?" ++ n
  | .val t _ => strRTerm t
  | .arith op l r => "(" ++ strFormula l ++ aopStrSym op ++ strFormula r ++ ")"
  | .and args => "(" ++ joinSep (" ∧ ") (strFormulaList args) ++ ")"
  | .or args => "(" ++ joinSep (" ∨ ") (strFormulaList args) ++ ")"
  | .not a => "¬ " ++ strFormula a
  | .eq l r => "[" ++ strFormula l ++ " = " ++ strFormula r ++ "]"
  | .ord op l r => "[" ++ strFormula l ++ oopStrSym op ++ strFormula r ++ "]"
  | .existsF x b => "∃ ?" ++ x ++ " " ++ strFormula b
  | .triple sj p o =>
    "<" ++ strFormula sj ++ ", " ++ strFormula p ++ ", " ++ strFormula o ++ ">"
termination_by f => 2 * fsize f
decreasing_by
  all_goals simp_wf
  all_goals simp only [fsize, fsizeList]
  all_goals omega

def strFormulaList : List Formula → List String
  | [] => []
  | f :: fs => strFormula f :: strFormulaList fs
termination_by l => 2 * fsizeList l + 1
decreasing_by
  all_goals simp_wf
  all_goals simp only [fsize, fsizeList]
  all_goals (try have := fsize_pos f)
  all_goals omega

end

mutual

/-- `_WikidataQuerySparqlBuilder._serialize_expression`. -/
def serializeExpression : Formula → Except PyErr String
  | .val t _ => .ok (serialize_rdf_term t)
  | .var n => .ok ("?" ++ n)
  | .or args => do
    let parts ← serializeExpressionList args
    .ok ("(" ++ joinSep (" || ") parts ++ ")")
  | .and args => do
    let parts ← serializeExpressionList args
    .ok ("(" ++ joinSep (" && ") parts ++ ")")
  | .not a => do
    let e ← serializeExpression a
    .ok ("! " ++ e)
  | .arith op l r => do
    let le ← serializeExpression l
    let re ← serializeExpression r
    .ok ("(" ++ le ++ aopStrSym op ++ re ++ ")")
  | .eq l r => do
    let le ← serializeExpression l
    .ok ("(" ++ le ++ " = " ++ strFormula r ++ ")")
  | .ord op l r => do
    let le ← serializeExpression l
    let re ← serializeExpression r
    .ok ("(" ++ le ++ oopExprSym op ++ re ++ ")")
  | .existsF _ _ => .error (.evalError ("Not able to serialize expression"))
  | .triple _ _ _ => .error (.evalError ("Not able to serialize expression"))
termination_by f => 2 * fsize f
decreasing_by
  all_goals simp_wf
  all_goals simp only [fsize, fsizeList]
  all_goals omega

def serializeExpressionList : List Formula → Except PyErr (List String)
  | [] => .ok []
  | f :: fs => do
    let e ← serializeExpression f
    let es ← serializeExpressionList fs
    .ok (e :: es)
termination_by l => 2 * fsizeList l + 1
decreasing_by
  all_goals simp_wf
  all_goals simp only [fsize, fsizeList]
  all_goals (try have := fsize_pos f)
  all_goals omega

end

/-- `_serialize_triple_argument` (the `ZeroOrMorePathFormula` branch refers to
a class absent from this revision of `formula.py` and is unreachable). -/
def serialize_triple_argument : Formula → Except PyErr String
  | .val t _ => .ok (serialize_rdf_term t)
  | .var n => .ok ("?" ++ n)
  | _ => .error (.evalError ("Not able to serialize triple argument"))

mutual

/-- `_WikidataQuerySparqlBuilder._build_internal`. -/
def buildInternal : Formula → Except PyErr String
  | .or args => do
    let parts ← buildInternalList args
    .ok ("\x7b\n\t"
      ++ joinSep ("\n\x7d UNION \x7b\n\t")
          (sortStrings (parts.map (fun c => pyReplace c ("\n") ("\n\t"))))
      ++ "\n\x7d")
  | .and args => do
    let parts ← buildInternalList args
    .ok (joinSep ("\n") (sortStrings parts))
  | .eq l r =>
    match l, r with
    | .var n, .val t o => do
      let e ← serializeExpression (.val t o)
      .ok ("BIND(" ++ e ++ " AS ?" ++ n ++ ")")
    | .val t o, .var n => do
      let e ← serializeExpression (.val t o)
      .ok ("BIND(" ++ e ++ " AS ?" ++ n ++ ")")
    | l2, r2 => do
      let e ← serializeExpression (.eq l2 r2)
      .ok ("FILTER" ++ e)
  | .ord op l r => do
    let e ← serializeExpression (.ord op l r)
    .ok ("FILTER" ++ e)
  | .arith op l r => do
    let e ← serializeExpression (.arith op l r)
    .ok ("FILTER" ++ e)
  | .triple sj p o => do
    let s2 ← serialize_triple_argument sj
    let p2 ← serialize_triple_argument p
    let o2 ← serialize_triple_argument o
    .ok (s2 ++ " " ++ p2 ++ " " ++ o2 ++ " .")
  | .existsF _ b => buildInternal b
  | .var n => .error (.evalError ("Term not supported by SPARQL builder"))
  | .val _ _ => .error (.evalError ("Term not supported by SPARQL builder"))
  | .not _ => .error (.evalError ("Term not supported by SPARQL builder"))
termination_by f => 2 * fsize f
decreasing_by
  all_goals simp_wf
  all_goals simp only [fsize, fsizeList]
  all_goals omega

def buildInternalList : List Formula → Except PyErr (List String)
  | [] => .ok []
  | f :: fs => do
    let e ← buildInternal f
    let es ← buildInternalList fs
    .ok (e :: es)
termination_by l => 2 * fsizeList l + 1
decreasing_by
  all_goals simp_wf
  all_goals simp only [fsize, fsizeList]
  all_goals (try have := fsize_pos f)
  all_goals omega

end

/-- `_WikidataQuerySparqlBuilder.build`: a `Select` becomes
`SELECT DISTINCT ... WHERE`, with sitelink ranking when requested and the
first output slot can hold entities (`term.type[0] & from_entity(owl:Thing)`
is not bottom); a boolean-typed formula becomes `ASK`; anything else raises
`EvaluationError`. -/
def build (doRanking : Bool) (term : PTerm) : Except PyErr String :=
  match term with
  | .select s =>
    match buildInternal s.body with
    | .error e => .error e
    | .ok clauses0 =>
      let clauses := pyReplace clauses0 ("\n") ("\n\t")
      match s.args with
      | [] =>
        .ok ("SELECT DISTINCT " ++ " WHERE \x7b\n\t" ++ clauses ++ "\n\x7d"
          ++ " LIMIT 100")
      | a :: rest =>
        let t0 := vtGet (varTypes s.body) a
        let ranked := doRanking
          && !(tyInter t0 (tyFromClass CClass.owl_Thing) == tyBottom)
        let clauses2 := if ranked then
            clauses ++ "\n\tOPTIONAL \x7b ?" ++ a
              ++ " wikibase:sitelinks ?sitelinksCount . \x7d"
          else clauses
        let suffix := if ranked then " ORDER BY DESC(?sitelinksCount) LIMIT 100"
          else " LIMIT 100"
        .ok ("SELECT DISTINCT " ++ joinSep (" ") ((a :: rest).map (fun v => "?" ++ v))
          ++ " WHERE \x7b\n\t" ++ clauses2 ++ "\n\x7d" ++ suffix)
  | .ofFormula f =>
    if tyLE (typeOf f) (tyFromDatatype CDatatype.xsd_boolean) then
      match buildInternal f with
      | .error e => .error e
      | .ok body => .ok ("ASK \x7b\n\t" ++ body ++ "\n\x7d")
    else .error (.evalError ("Root term not supported by SPARQL builder"))
  | .tuple _ => .error (.evalError ("Root term not supported by SPARQL builder"))

/-- The known object property `wdt:P2` (domain and range
`owl:NamedIndividual`, as Wikidata object properties are constructed). -/
def p2Term : RTerm :=
  .entity ("http://www.wikidata.org/prop/direct/P2")
    [CClass.rdf_Property, CClass.owl_ObjectProperty] 0
    (some (CClass.owl_NamedIndividual, Sum.inl CClass.owl_NamedIndividual))

/-- The known entity `wd:Q2`. -/
def q2Term : RTerm :=
  .entity ("http://www.wikidata.org/entity/Q2")
    [CClass.owl_Thing, CClass.owl_NamedIndividual] 0 none

/-- C2, confirmed: with ranking enabled, `Select(x, Triple(x, P2, Q2))`
serialises to exactly the claimed SPARQL string. -/
theorem C2_sparql_roundtrip :
    build true (.select ⟨[("x")],
        .triple (.var ("x")) (.val p2Term none) (.val q2Term none)⟩)
      = .ok ("SELECT DISTINCT ?x WHERE \x7b\n\t?x wdt:P2 wd:Q2 .\n\tOPTIONAL \x7b ?x wikibase:sitelinks ?sitelinksCount . \x7d\n\x7d ORDER BY DESC(?sitelinksCount) LIMIT 100") := by
  have hBI : buildInternal
      (.triple (.var ("x")) (.val p2Term none) (.val q2Term none))
      = .ok ("?x wdt:P2 wd:Q2 .") := by
    simp only [buildInternal]
    decide
  rw [build, hBI]
  rw [varTypes.eq_def]
  decide


/-! ### C6: the disambiguation tree conserves the input terms -/

mutual

/-- The sequence of `(original_str, term)` pairs that `Term.explore` presents
to `find_term_with_str`, in exploration order (each class calls the function
on itself, then explores its children; only a `ValueFormula` with an original
string contributes). -/
def exploreF : Formula → List (String × Formula)
  | .var _ => []
  | .val t (some o) => [(o, .val t (some o))]
  | .val _ none => []
  | .arith _ l r => exploreF l ++ exploreF r
  | .and args => exploreListF args
  | .or args => exploreListF args
  | .not a => exploreF a
  | .eq l r => exploreF l ++ exploreF r
  | .ord _ l r => exploreF l ++ exploreF r
  | .existsF _ b => exploreF b
  | .triple sj p o => exploreF sj ++ exploreF p ++ exploreF o

def exploreListF : List Formula → List (String × Formula)
  | [] => []
  | f :: fs => exploreF f ++ exploreListF fs

end

mutual

/-- `Term.explore` on terms (`Tuple` explores its elements, `Select` its
body). -/
def explorePTerm : PTerm → List (String × Formula)
  | .ofFormula f => exploreF f
  | .tuple es => explorePTermList es
  | .select s => exploreF s.body

def explorePTermList : List PTerm → List (String × Formula)
  | [] => []
  | e :: es => explorePTerm e ++ explorePTermList es

end

/-- A trace: the `dict` mapping original strings to sub-terms. -/
abbrev TraceD := List (String × Formula)

/-- `dict.__setitem__`: overwrite in place or append. -/
def dictInsert (m : TraceD) (kv : String × Formula) : TraceD :=
  if m.any (fun p => p.1 == kv.1) then
    m.map (fun p => if p.1 == kv.1 then kv else p)
  else m ++ [kv]

def traceOf (t : PTerm) : TraceD := (explorePTerm t).foldl dictInsert []

def traceGet (m : TraceD) (k : String) : Option Formula :=
  (m.find? (fun p => p.1 == k)).map (fun p => p.2)

def traceDel (m : TraceD) (k : String) : TraceD := m.filter (fun p => p.1 != k)

/-- A full term paired with its trace. -/
abbrev Entry := PTerm × TraceD

/-- Python `==` as used by the `set`/`dict` of `build_tree` on trace values
(always `ValueFormula`s, compared by their wrapped terms). -/
def vfEq (a b : Formula) : Bool :=
  match a, b with
  | .val t1 _, .val t2 _ => rtermEq t1 t2
  | a2, b2 => a2 == b2

/-- The keys of `str_possible_terms` in first-insertion order. -/
def allKeys (entries : List Entry) : List String :=
  (entries.flatMap (fun e => e.2.map (fun p => p.1))).eraseDups

/-- The trace values recorded for a key, over all entries. -/
def valuesFor (entries : List Entry) (k : String) : List Formula :=
  entries.flatMap (fun e =>
    match traceGet e.2 k with
    | some w => [w]
    | none => [])

/-- Distinct values under Python `==` (the `set` of `str_possible_terms`),
first occurrences kept. -/
def dedupBy : List Formula → List Formula
  | [] => []
  | v :: vs => v :: dedupBy (vs.filter (fun w => !(vfEq v w)))
termination_by l => l.length
decreasing_by
  simp_wf
  exact Nat.lt_succ_of_le (List.length_filter_le _ _)

/-- The head of `sorted(..., key=len, reverse=True)`: the first entry with the
maximal count (Python sort is stable). -/
def pickBest : List (String × Nat) → Option (String × Nat)
  | [] => none
  | kn :: rest =>
    match pickBest rest with
    | none => some kn
    | some kn2 => if kn2.2 > kn.2 then some kn2 else some kn

/-- `defaultdict(list)` grouping: append the entry to its value's bucket
(first matching bucket; bucket keys are pairwise distinct) or open a new
bucket at the end. -/
def addToBuckets : List (Formula × List Entry) → Formula → Entry →
    List (Formula × List Entry)
  | [], v, e => [(v, [e])]
  | b :: bs, v, e =>
    if vfEq b.1 v then (b.1, b.2 ++ [e]) :: bs else b :: addToBuckets bs v e

/-- The grouping loop of `build_tree`: entries holding the discriminative
string go to the bucket of their chosen term (with the string deleted from
their trace), the rest to `others`. -/
def groupGo (ds : String) : List Entry → List (Formula × List Entry) →
    List Entry → (List (Formula × List Entry)) × List Entry
  | [], buckets, others => (buckets, others)
  | e :: rest, buckets, others =>
    match traceGet e.2 ds with
    | some w => groupGo ds rest (addToBuckets buckets w (e.1, traceDel e.2 ds)) others
    | none => groupGo ds rest buckets (others ++ [e])

def groupByDS (ds : String) (entries : List Entry) :
    (List (Formula × List Entry)) × List Entry :=
  groupGo ds entries [] []

/-- The tree returned by `find_process`: either a flat list of terms or a
`DisambiguationStep`. -/
inductive DTree where
  | leaf (terms : List PTerm)
  | step (ds : String) (buckets : List (Formula × DTree)) (others : DTree)

mutual

/-- The multiset of terms in the leaves of a tree. -/
def dtLeaves : DTree → Multiset PTerm
  | .leaf ts => (ts : Multiset PTerm)
  | .step _ buckets others => dtLeavesList buckets + dtLeaves others

def dtLeavesList : List (Formula × DTree) → Multiset PTerm
  | [] => 0
  | b :: bs => dtLeaves b.2 + dtLeavesList bs

end

/-- `build_tree`, fuelled (the recursion goes through the grouping's lists);
the wrapper supplies more fuel than the recursion depth can reach, so the `0`
case is unreachable. -/
def buildTreeFuel : Nat → List Entry → DTree
  | 0, entries => .leaf (entries.map (fun e => e.1))
  | n + 1, entries =>
    let keyCounts := (allKeys entries).map
      (fun k => (k, (dedupBy (valuesFor entries k)).length))
    match pickBest keyCounts with
    | none => .leaf (entries.map (fun e => e.1))
    | some kn =>
      if kn.2 < 2 then .leaf (entries.map (fun e => e.1))
      else
        let g := groupByDS kn.1 entries
        .step kn.1 (g.1.map (fun b => (b.1, buildTreeFuel n b.2)))
          (buildTreeFuel n g.2)

def Wsum (entries : List Entry) : Nat := (entries.map (fun e => 1 + e.2.length)).sum

def build_tree (entries : List Entry) : DTree := buildTreeFuel (Wsum entries + 1) entries

/-- `find_process`: compute each term trace, then build the tree. -/
def find_process (terms : List PTerm) : DTree :=
  build_tree (terms.map (fun t => (t, traceOf t)))

def entryTerms (entries : List Entry) : Multiset PTerm :=
  ((entries.map (fun e => e.1) : List PTerm) : Multiset PTerm)

def bucketsEntryTerms : List (Formula × List Entry) → Multiset PTerm
  | [] => 0
  | b :: bs => entryTerms b.2 + bucketsEntryTerms bs

theorem entryTerms_append (l1 l2 : List Entry) :
    entryTerms (l1 ++ l2) = entryTerms l1 + entryTerms l2 := by
  simp [entryTerms]

theorem addToBuckets_terms (bs : List (Formula × List Entry)) (v : Formula)
    (e : Entry) :
    bucketsEntryTerms (addToBuckets bs v e)
      = bucketsEntryTerms bs + entryTerms [e] := by
  induction bs with
  | nil => simp [addToBuckets, bucketsEntryTerms, entryTerms]
  | cons b bs ih =>
    rw [addToBuckets]
    by_cases hc : vfEq b.1 v = true
    · rw [if_pos hc]
      rw [bucketsEntryTerms, bucketsEntryTerms, entryTerms_append]
      abel
    · rw [if_neg hc]
      rw [bucketsEntryTerms, bucketsEntryTerms, ih]
      abel

theorem groupGo_terms (ds : String) :
    ∀ (entries : List Entry) (buckets : List (Formula × List Entry))
      (others : List Entry),
    bucketsEntryTerms (groupGo ds entries buckets others).1
        + entryTerms (groupGo ds entries buckets others).2
      = bucketsEntryTerms buckets + entryTerms others + entryTerms entries := by
  intro entries
  induction entries with
  | nil =>
    intro buckets others
    rw [groupGo]
    simp [entryTerms]
  | cons e rest ih =>
    intro buckets others
    rw [groupGo]
    have hsplit : entryTerms (e :: rest) = entryTerms [e] + entryTerms rest := by
      simp [entryTerms]
    cases htg : traceGet e.2 ds with
    | some w =>
      have he : entryTerms [(e.1, traceDel e.2 ds)] = entryTerms [e] := by
        simp [entryTerms]
      rw [ih, addToBuckets_terms, he, hsplit]
      abel
    | none =>
      rw [ih, entryTerms_append, hsplit]
      abel

theorem buildTreeFuel_leaves (n : Nat) :
    ∀ entries : List Entry, dtLeaves (buildTreeFuel n entries) = entryTerms entries := by
  induction n with
  | zero =>
    intro entries
    rw [buildTreeFuel, dtLeaves, entryTerms]
  | succ n ih =>
    intro entries
    have hlist : ∀ bs : List (Formula × List Entry),
        dtLeavesList (bs.map (fun b => (b.1, buildTreeFuel n b.2)))
          = bucketsEntryTerms bs := by
      intro bs
      induction bs with
      | nil => rw [List.map_nil, dtLeavesList, bucketsEntryTerms]
      | cons b bs ihb =>
        rw [List.map_cons, dtLeavesList, bucketsEntryTerms, ihb, ih]
    simp only [buildTreeFuel]
    split
    · rw [dtLeaves, entryTerms]
    · split
      · rw [dtLeaves, entryTerms]
      · rename_i kn heq hlt
        rw [dtLeaves, hlist, ih, groupByDS]
        have hgo := groupGo_terms kn.1 entries [] []
        rw [hgo]
        simp [bucketsEntryTerms, entryTerms]

/-- C6, confirmed: the multiset of terms in the leaves of
`find_process(terms)` is exactly the input list — every input term lands in
exactly one leaf, none lost and none duplicated. -/
theorem C6_leaf_conservation (terms : List PTerm) :
    dtLeaves (find_process terms) = (terms : Multiset PTerm) := by
  rw [find_process, build_tree, buildTreeFuel_leaves, entryTerms, List.map_map]
  exact congrArg (fun l : List PTerm => (l : Multiset PTerm)) (List.map_id' terms)

end Platypus
